import Mathlib

/-!
Verification of the overlay-scribe annotation core: a shallow embedding of
the document model, edit journal, eraser hit tests and arrow routing,
translated from the Rust sources (`model.rs`, `geometry.rs`, `store.rs`,
`render.rs`).

Modelling conventions:
* `f32` values are idealized as exact rationals (`ℚ`); machine rounding is
  not modelled.  The machine constant `f32::EPSILON` is the exact value
  `2^-23`.
* `f32::sqrt` is modelled by an explicit parameter `sq : ℚ → ℚ` threaded
  through every definition that transitively needs it, so universally
  quantified theorems hold for every interpretation of the square root.
  Concrete evaluations use `ratSqrt`, which is exact on perfect rational
  squares (every concrete input below is chosen so that only perfect
  squares are taken).
* `u64` ids are modelled as `ℕ` with explicit saturation at `2^64 - 1`,
  mirroring `saturating_add`.
* Rust `Vec` journals are modelled as lists whose head is the stack top.
* The Rust field `end` is renamed `endp` (`end` is a Lean keyword).
-/

unseal Rat.add Rat.mul Rat.sub Rat.inv Rat.ofScientific

/-- Upper bound of `u64`, used by `saturating_add`. -/
def U64MAX : Nat := 2 ^ 64 - 1

/-- `u64::saturating_add(1)` on an id counter. -/
def satSucc (n : Nat) : Nat := min (n + 1) U64MAX

/-- Fuel-bounded Newton iteration for the integer square root (structural
recursion, so the kernel can evaluate it). -/
def isqrtAux : Nat → Nat → Nat → Nat
  | 0, _, g => g
  | fuel + 1, n, g =>
    let next := (g + n / g) / 2
    if next < g then isqrtAux fuel n next else g

/-- Integer square root via `isqrtAux` (enough fuel to converge). -/
def isqrt (n : Nat) : Nat := if n ≤ 1 then n else isqrtAux n n (n / 2)

/-- Square root model used for concrete evaluations: exact on perfect
rational squares, zero elsewhere. -/
def ratSqrt (q : ℚ) : ℚ :=
  let n := q.num.toNat
  let d := q.den
  let sn := isqrt n
  let sd := isqrt d
  if sn * sn = n ∧ sd * sd = d then (sn : ℚ) / (sd : ℚ) else 0

/-- `hypot` from `render.rs`: `(dx*dx + dy*dy).sqrt()`. -/
def hypotQ (sq : ℚ → ℚ) (dx dy : ℚ) : ℚ := sq (dx * dx + dy * dy)

/-- Rust `f32::clamp(lo, hi)`. -/
def clampQ (x lo hi : ℚ) : ℚ := if x < lo then lo else if x > hi then hi else x

/-- `f32::EPSILON`, exactly `2^-23`. -/
def eps32 : ℚ := 1 / 8388608

/-- `model.rs`: four 8-bit color channels. -/
structure ColorRgba8 where
  r : Nat
  g : Nat
  b : Nat
  a : Nat
deriving DecidableEq, Repr

/-- `model.rs`: a 2-d point with `f32` coordinates, idealized over `ℚ`. -/
structure Point where
  x : ℚ
  y : ℚ
deriving DecidableEq, Repr

/-- `model.rs`: a freehand stroke. -/
structure Stroke where
  id : Nat
  color : ColorRgba8
  width : ℚ
  points : List Point
deriving DecidableEq, Repr

/-- `model.rs`: the five shape kinds. -/
inductive ShapeKind where
  | Rectangle
  | RoundedRectangle
  | Ellipse
  | Arrow
  | CurvedArrow
deriving DecidableEq, Repr

/-- `model.rs`: shape styling record. -/
structure ShapeStyle where
  stroke_color : ColorRgba8
  stroke_width : ℚ
  fill_enabled : Bool
  fill_color : ColorRgba8
  hatch_enabled : Bool
  corner_radius : ℚ
deriving DecidableEq, Repr

/-- `model.rs`: horizontal text alignment. -/
inductive TextAlignH where
  | Left
  | Center
  | Right
deriving DecidableEq, Repr

/-- `model.rs`: vertical text alignment. -/
inductive TextAlignV where
  | Top
  | Middle
  | Bottom
deriving DecidableEq, Repr

/-- `model.rs`: a parametric shape.  The Rust field `end` is `endp` here. -/
structure Shape where
  id : Nat
  kind : ShapeKind
  style : ShapeStyle
  start : Point
  endp : Point
  start_attach_id : Option Nat
  end_attach_id : Option Nat
  start_attach_uv : Option Point
  end_attach_uv : Option Point
  text : String
  text_align_h : TextAlignH
  text_align_v : TextAlignV
deriving DecidableEq, Repr

/-- `model.rs`: an item is a stroke or a shape. -/
inductive Item where
  | Stroke (s : Stroke)
  | Shape (sh : Shape)
deriving DecidableEq, Repr

/-- The id of an item, as matched in `Store::load_document`. -/
def Item.itemId : Item → Nat
  | .Stroke s => s.id
  | .Shape sh => sh.id

/-- `store.rs`: a versioned document. -/
structure Document where
  version : Nat
  items : List Item
deriving DecidableEq, Repr

/-- `store.rs`: journal entries. -/
inductive Edit where
  | AddItem (item : Item)
  | RemoveItem (index : Nat) (item : Item)
  | ReplaceItem (index : Nat) (before after : Item)
  | ReplaceAll (before after : List Item)
deriving DecidableEq, Repr

/-- `store.rs`: the mutable store.  The journal lists keep the stack top at
the head. -/
structure Store where
  items : List Item
  undo : List Edit
  redo : List Edit
  next_id : Nat
deriving DecidableEq, Repr

/-! ### Geometry (`geometry.rs`) -/

/-- `geometry.rs`: axis-aligned rectangle. -/
structure Rect where
  min_x : ℚ
  min_y : ℚ
  max_x : ℚ
  max_y : ℚ
deriving DecidableEq, Repr

/-- `Rect::from_points`: componentwise min/max of the two corners. -/
def Rect.from_points (a b : Point) : Rect :=
  { min_x := min a.x b.x
    min_y := min a.y b.y
    max_x := max a.x b.x
    max_y := max a.y b.y }

/-- `Rect::width`. -/
def Rect.width (r : Rect) : ℚ := r.max_x - r.min_x

/-- `Rect::height`. -/
def Rect.height (r : Rect) : ℚ := r.max_y - r.min_y

/-- `Rect::center`. -/
def Rect.center (r : Rect) : Point :=
  { x := (r.min_x + r.max_x) * (1/2), y := (r.min_y + r.max_y) * (1/2) }

/-- `Rect::contains`: closed containment test. -/
def Rect.containsP (r : Rect) (p : Point) : Bool :=
  decide (p.x ≥ r.min_x) && decide (p.x ≤ r.max_x) &&
    decide (p.y ≥ r.min_y) && decide (p.y ≤ r.max_y)

/-- `Rect::inflate`: symmetric inflation. -/
def Rect.inflate (r : Rect) (dx dy : ℚ) : Rect :=
  { min_x := r.min_x - dx
    min_y := r.min_y - dy
    max_x := r.max_x + dx
    max_y := r.max_y + dy }

/-- `Rect::union`. -/
def Rect.union (r other : Rect) : Rect :=
  { min_x := min r.min_x other.min_x
    min_y := min r.min_y other.min_y
    max_x := max r.max_x other.max_x
    max_y := max r.max_y other.max_y }

/-- `geometry.rs`: the closed shape kinds. -/
inductive ClosedShapeKind where
  | Rectangle
  | RoundedRectangle
  | Ellipse
deriving DecidableEq, Repr

/-- `geometry.rs`: a closed shape selected as attachment target or
obstacle. -/
structure ClosedShapeHit where
  id : Nat
  kind : ClosedShapeKind
  rect : Rect
deriving DecidableEq, Repr

/-- `geometry.rs::is_closed_shape`. -/
def is_closed_shape : ShapeKind → Bool
  | .Rectangle | .RoundedRectangle | .Ellipse => true
  | _ => false

/-- `geometry.rs::closed_shape_kind`. -/
def closed_shape_kind : ShapeKind → Option ClosedShapeKind
  | .Rectangle => some .Rectangle
  | .RoundedRectangle => some .RoundedRectangle
  | .Ellipse => some .Ellipse
  | _ => none

/-- `geometry.rs::rect_for_shape`. -/
def rect_for_shape (sh : Shape) : Rect := Rect.from_points sh.start sh.endp

/-- `geometry.rs::collect_closed_shapes`. -/
def collect_closed_shapes (items : List Item) : List ClosedShapeHit :=
  items.filterMap fun it =>
    match it with
    | .Stroke _ => none
    | .Shape sh =>
      (closed_shape_kind sh.kind).map fun k =>
        { id := sh.id, kind := k, rect := rect_for_shape sh }

/-! ### Eraser hit tests (`store.rs`, free functions) -/

/-- `store.rs::dist2`. -/
def dist2 (a b : Point) : ℚ :=
  (a.x - b.x) * (a.x - b.x) + (a.y - b.y) * (a.y - b.y)

/-- `store.rs::dist2_point_to_segment`. -/
def dist2_point_to_segment (p a b : Point) : ℚ :=
  let abx := b.x - a.x
  let aby := b.y - a.y
  let apx := p.x - a.x
  let apy := p.y - a.y
  let ab_len2 := abx * abx + aby * aby
  if ab_len2 ≤ eps32 then apx * apx + apy * apy
  else
    let t := clampQ ((apx * abx + apy * aby) / ab_len2) 0 1
    let cx := a.x + t * abx
    let cy := a.y + t * aby
    (p.x - cx) * (p.x - cx) + (p.y - cy) * (p.y - cy)

/-- Consecutive-segment hit test over a polyline (the `windows(2)` loops of
`store.rs`). -/
def polylineHit (p : Point) (r2 : ℚ) : List Point → Bool
  | a :: b :: rest =>
    decide (dist2_point_to_segment p a b ≤ r2) || polylineHit p r2 (b :: rest)
  | _ => false

/-- `store.rs::stroke_intersects_point`. -/
def stroke_intersects_point (st : Stroke) (p : Point) (r2 : ℚ) : Bool :=
  match st.points with
  | [pt] => decide (dist2 pt p ≤ r2)
  | pts => polylineHit p r2 pts

/-- `store.rs::control_point_for_curve` (the eraser's quadratic control). -/
def control_point_for_curve (sq : ℚ → ℚ) (start endp : Point) : Point :=
  let mid : Point := ⟨(start.x + endp.x) * (1/2), (start.y + endp.y) * (1/2)⟩
  let dx := endp.x - start.x
  let dy := endp.y - start.y
  let len := sq (dx * dx + dy * dy)
  if len ≤ 1/2 then mid
  else
    let ux := dx / len
    let uy := dy / len
    let perp_x := -uy
    let perp_y := ux
    let sign : ℚ := if dx * dy ≥ 0 then 1 else -1
    let magnitude := clampQ (len * (22/100)) 18 160
    ⟨mid.x + perp_x * magnitude * sign, mid.y + perp_y * magnitude * sign⟩

/-- `store.rs::approximate_quadratic`. -/
def approximate_quadratic (start control endp : Point) (steps : Nat) : List Point :=
  let steps := max steps 1
  (List.range (steps + 1)).map fun (i : Nat) =>
    let t : ℚ := (i : ℚ) / (steps : ℚ)
    let u : ℚ := 1 - t
    ⟨u * u * start.x + 2 * u * t * control.x + t * t * endp.x,
     u * u * start.y + 2 * u * t * control.y + t * t * endp.y⟩

/-- `store.rs::shape_intersects_point`. -/
def shape_intersects_point (sq : ℚ → ℚ) (sh : Shape) (p : Point) (r2 : ℚ) : Bool :=
  match sh.kind with
  | .Rectangle | .RoundedRectangle =>
    let min_x := if sh.start.x ≤ sh.endp.x then sh.start.x else sh.endp.x
    let max_x := if sh.start.x ≤ sh.endp.x then sh.endp.x else sh.start.x
    let min_y := if sh.start.y ≤ sh.endp.y then sh.start.y else sh.endp.y
    let max_y := if sh.start.y ≤ sh.endp.y then sh.endp.y else sh.start.y
    let tl : Point := ⟨min_x, min_y⟩
    let tr : Point := ⟨max_x, min_y⟩
    let br : Point := ⟨max_x, max_y⟩
    let bl : Point := ⟨min_x, max_y⟩
    decide (dist2_point_to_segment p tl tr ≤ r2) ||
      decide (dist2_point_to_segment p tr br ≤ r2) ||
      decide (dist2_point_to_segment p br bl ≤ r2) ||
      decide (dist2_point_to_segment p bl tl ≤ r2)
  | .Ellipse =>
    let min_x := if sh.start.x ≤ sh.endp.x then sh.start.x else sh.endp.x
    let max_x := if sh.start.x ≤ sh.endp.x then sh.endp.x else sh.start.x
    let min_y := if sh.start.y ≤ sh.endp.y then sh.start.y else sh.endp.y
    let max_y := if sh.start.y ≤ sh.endp.y then sh.endp.y else sh.start.y
    let w := |max_x - min_x|
    let h := |max_y - min_y|
    if w ≤ eps32 ∨ h ≤ eps32 then
      decide (dist2_point_to_segment p sh.start sh.endp ≤ r2)
    else
      let cx := (min_x + max_x) * (1/2)
      let cy := (min_y + max_y) * (1/2)
      let a := w * (1/2)
      let b := h * (1/2)
      let dx := p.x - cx
      let dy := p.y - cy
      let value := (dx * dx) / (a * a) + (dy * dy) / (b * b)
      let approx_dist := |value - 1| * min a b
      decide (approx_dist * approx_dist ≤ r2)
  | .Arrow => decide (dist2_point_to_segment p sh.start sh.endp ≤ r2)
  | .CurvedArrow =>
    let control := control_point_for_curve sq sh.start sh.endp
    let samples := approximate_quadratic sh.start control sh.endp 16
    polylineHit p r2 samples

/-- `store.rs::item_intersects_point`. -/
def item_intersects_point (sq : ℚ → ℚ) (it : Item) (p : Point) (r2 : ℚ) : Bool :=
  match it with
  | .Stroke st => stroke_intersects_point st p r2
  | .Shape sh => shape_intersects_point sq sh p r2

/-! ### Store operations (`store.rs`) -/

/-- Remove the element at `i` (Rust `Vec::remove`, guarded by the caller's
bounds check). -/
def removeAt (l : List Item) (i : Nat) : List Item := l.take i ++ l.drop (i + 1)

/-- Insert at `i ≤ l.length` (Rust `Vec::insert`). -/
def insertAt (l : List Item) (i : Nat) (x : Item) : List Item :=
  l.take i ++ x :: l.drop i

/-- First index of a value-equal element (Rust `iter().position`). -/
def posAux (x : Item) : List Item → Nat → Option Nat
  | [], _ => none
  | y :: ys, i => if y = x then some i else posAux x ys (i + 1)

/-- `Store::apply_no_history`, acting on the item list. -/
def applyNoHistory (e : Edit) (items : List Item) : List Item :=
  match e with
  | .AddItem item => items ++ [item]
  | .RemoveItem index _ => if index < items.length then removeAt items index else items
  | .ReplaceItem index _ after =>
    if index < items.length then items.set index after else items
  | .ReplaceAll _ after => after

/-- `Store::unapply`, acting on the item list; returns the new list and the
recorded inverse edit. -/
def unapplyEdit (e : Edit) (items : List Item) : List Item × Edit :=
  match e with
  | .AddItem item =>
    let index := (posAux item items 0).getD (items.length - 1)
    (if index < items.length then removeAt items index else items,
     .RemoveItem index item)
  | .RemoveItem index item =>
    (insertAt items (min index items.length) item, .AddItem item)
  | .ReplaceItem index before after =>
    (if index < items.length then items.set index before else items,
     .ReplaceItem index after before)
  | .ReplaceAll before after => (before, .ReplaceAll after before)

namespace Store

/-- `Store::new` / `Store::default`. -/
def new : Store := ⟨[], [], [], 0⟩

/-- `Store::document`. -/
def document (s : Store) : Document := ⟨2, s.items⟩

/-- `Store::load_document`.  `iter().max().unwrap_or(0)` over `u64` ids is
the fold of `max` with base `0`; the incoming store's state is discarded
entirely. -/
def load_document (_s : Store) (doc : Document) : Store :=
  { items := doc.items
    undo := []
    redo := []
    next_id := satSucc ((doc.items.map Item.itemId).foldl max 0) }

/-- `Store::apply`: clear the redo journal, apply, push onto undo. -/
def apply (e : Edit) (s : Store) : Store :=
  { items := applyNoHistory e s.items
    undo := e :: s.undo
    redo := []
    next_id := s.next_id }

/-- `Store::begin_stroke`. -/
def begin_stroke (s : Store) (color : ColorRgba8) (width : ℚ) (start : Point) :
    Store × Stroke :=
  ({ s with next_id := satSucc s.next_id },
   { id := s.next_id, color := color, width := width, points := [start] })

/-- `Store::begin_shape`.  The attach fields are absent from the struct
literal in the source; per the spec a begun shape has no attachments. -/
def begin_shape (s : Store) (kind : ShapeKind) (style : ShapeStyle) (start : Point) :
    Store × Shape :=
  ({ s with next_id := satSucc s.next_id },
   { id := s.next_id, kind := kind, style := style, start := start, endp := start
     start_attach_id := none, end_attach_id := none
     start_attach_uv := none, end_attach_uv := none
     text := "", text_align_h := .Center, text_align_v := .Middle })

/-- `Store::commit_stroke`. -/
def commit_stroke (s : Store) (st : Stroke) : Store :=
  apply (.AddItem (.Stroke st)) s

/-- The `find_map` of `Store::commit_shape`: first `(index, Item::Shape _)`
whose shape id matches. -/
def findShapeIdx (id : Nat) : List Item → Nat → Option (Nat × Item)
  | [], _ => none
  | .Stroke _ :: rest, i => findShapeIdx id rest (i + 1)
  | .Shape sh :: rest, i =>
    if sh.id = id then some (i, .Shape sh) else findShapeIdx id rest (i + 1)

/-- `Store::commit_shape`. -/
def commit_shape (s : Store) (sh : Shape) : Store :=
  match findShapeIdx sh.id s.items 0 with
  | some (index, before) => apply (.ReplaceItem index before (.Shape sh)) s
  | none => apply (.AddItem (.Shape sh)) s

/-- `Store::clear_all`. -/
def clear_all (s : Store) : Store :=
  apply (.ReplaceAll s.items []) s

/-- `Store::can_undo`. -/
def can_undo (s : Store) : Bool := !s.undo.isEmpty

/-- `Store::can_redo`. -/
def can_redo (s : Store) : Bool := !s.redo.isEmpty

/-- `Store::undo`; on `CannotUndo` the state is returned unchanged. -/
def undoStep (s : Store) : Store :=
  match s.undo with
  | [] => s
  | e :: rest =>
    let r := unapplyEdit e s.items
    { items := r.1, undo := rest, redo := r.2 :: s.redo, next_id := s.next_id }

/-- `Store::redo`; on `CannotRedo` the state is returned unchanged. -/
def redoStep (s : Store) : Store :=
  match s.redo with
  | [] => s
  | e :: rest =>
    let r := unapplyEdit e s.items
    { items := r.1, undo := r.2 :: s.undo, redo := rest, next_id := s.next_id }

/-- `Store::erase_at`. -/
def erase_at (sq : ℚ → ℚ) (s : Store) (p : Point) (radius : ℚ) : Store × Bool :=
  if s.items = [] then (s, false)
  else
    let before := s.items
    let r2 := radius * radius
    let after := s.items.filter fun it => !item_intersects_point sq it p r2
    if before = after then ({ s with items := after }, false)
    else (apply (.ReplaceAll before after) { s with items := after }, true)

end Store

/-! ### Arrow routing (`render.rs`) -/

/-- `render.rs`: path variants. -/
inductive ArrowPath where
  | Line
  | Quadratic (control : Point)
  | Cubic (c1 c2 : Point)
deriving DecidableEq, Repr

/-- `render.rs`: one rendered arrow. -/
structure ArrowRender where
  shape_id : Nat
  style : ShapeStyle
  start : Point
  endp : Point
  path : ArrowPath
  head_left : Point
  head_right : Point
deriving DecidableEq, Repr

/-- `render.rs::clamp01`. -/
def clamp01 (v : ℚ) : ℚ := clampQ v 0 1

/-- `render.rs::vec_norm`. -/
def vec_norm (sq : ℚ → ℚ) (dx dy : ℚ) : Option (ℚ × ℚ) :=
  let len := hypotQ sq dx dy
  if len ≤ 1 / 1000000 then none else some (dx / len, dy / len)

/-- `render.rs::intersect_rect`. -/
def intersect_rect (rect : Rect) (dx dy : ℚ) : Point :=
  let center := rect.center
  let hx := rect.width * (1/2)
  let hy := rect.height * (1/2)
  let adx := max |dx| (1 / 1000000)
  let ady := max |dy| (1 / 1000000)
  let s := min (hx / adx) (hy / ady)
  ⟨center.x + dx * s, center.y + dy * s⟩

/-- `render.rs::intersect_ellipse`. -/
def intersect_ellipse (rect : Rect) (dx dy : ℚ) : Point :=
  let center := rect.center
  let rx := max (rect.width * (1/2)) (1 / 1000000)
  let ry := max (rect.height * (1/2)) (1 / 1000000)
  let sx := max (|dx| / rx) (1 / 1000000)
  let sy := max (|dy| / ry) (1 / 1000000)
  let s := max sx sy
  ⟨center.x + dx / s, center.y + dy / s⟩

/-- `render.rs::point_from_uv`. -/
def point_from_uv (rect : Rect) (uv : Point) : Point :=
  ⟨rect.min_x + clamp01 uv.x * rect.width, rect.min_y + clamp01 uv.y * rect.height⟩

/-- `render.rs::anchor_point_uv`. -/
def anchor_point_uv (target : ClosedShapeHit) (uv : Point) : Point :=
  let center := target.rect.center
  let lo := point_from_uv target.rect uv
  let dx := lo.x - center.x
  let dy := lo.y - center.y
  if dx * dx + dy * dy ≤ 1 / 1000000 then center
  else
    match target.kind with
    | .Ellipse => intersect_ellipse target.rect dx dy
    | .Rectangle | .RoundedRectangle => intersect_rect target.rect dx dy

/-- `render.rs::compute_arrowhead`. -/
def compute_arrowhead (sq : ℚ → ℚ) (endp : Point) (tangent_dx tangent_dy : ℚ)
    (stroke_width : ℚ) : Point × Point :=
  match vec_norm sq tangent_dx tangent_dy with
  | none => (endp, endp)
  | some (ux, uy) =>
    let head_length := max (stroke_width * 4) 10
    let head_width := max (stroke_width * 3) 8
    let base : Point := ⟨endp.x - ux * head_length, endp.y - uy * head_length⟩
    let px := -uy
    let py := ux
    (⟨base.x + px * (head_width * (1/2)), base.y + py * (head_width * (1/2))⟩,
     ⟨base.x - px * (head_width * (1/2)), base.y - py * (head_width * (1/2))⟩)

/-- `render.rs::point_at_quadratic`. -/
def point_at_quadratic (start control endp : Point) (t : ℚ) : Point :=
  let mt := 1 - t
  let a := mt * mt
  let b := 2 * mt * t
  let c := t * t
  ⟨a * start.x + b * control.x + c * endp.x, a * start.y + b * control.y + c * endp.y⟩

/-- `render.rs::point_at_cubic`. -/
def point_at_cubic (start c1 c2 endp : Point) (t : ℚ) : Point :=
  let mt := 1 - t
  let a := mt * mt * mt
  let b := 3 * mt * mt * t
  let c := 3 * mt * t * t
  let d := t * t * t
  ⟨a * start.x + b * c1.x + c * c2.x + d * endp.x,
   a * start.y + b * c1.y + c * c2.y + d * endp.y⟩

/-- `render.rs::cubic_controls_through_midpoint`. -/
def cubic_controls_through_midpoint (start endp waypoint : Point) : Point × Point :=
  let k : ℚ := 4 / 3
  (⟨start.x + (waypoint.x - start.x) * k, start.y + (waypoint.y - start.y) * k⟩,
   ⟨endp.x + (waypoint.x - endp.x) * k, endp.y + (waypoint.y - endp.y) * k⟩)

/-- `render.rs::cubic_controls_pull_toward_waypoint`. -/
def cubic_controls_pull_toward_waypoint (sq : ℚ → ℚ) (start endp waypoint : Point) :
    Point × Point :=
  let d1 := hypotQ sq (waypoint.x - start.x) (waypoint.y - start.y)
  let d2 := hypotQ sq (waypoint.x - endp.x) (waypoint.y - endp.y)
  let d := max (d1 + d2) (1 / 1000000)
  let a := clampQ (d / (d + 140)) (50/100) (78/100)
  (⟨start.x + (waypoint.x - start.x) * a, start.y + (waypoint.y - start.y) * a⟩,
   ⟨endp.x + (waypoint.x - endp.x) * a, endp.y + (waypoint.y - endp.y) * a⟩)

/-- The `hits_by_id` update of `sample_inside_hits`: increment the first
entry with this id, else push `(id, 1)` at the back. -/
def bumpHits : List (Nat × Int) → Nat → List (Nat × Int)
  | [], id => [(id, 1)]
  | (k, v) :: rest, id =>
    if k = id then (k, v + 1) :: rest else (k, v) :: bumpHits rest id

/-- The body of the inner obstacle loop of `sample_inside_hits` for one
sample point `p`, folded over the `expanded` list. -/
def sampleInner (sq : ℚ → ℚ) (start endp : Point) (attached_ids : List Nat)
    (obstacles : List ClosedShapeHit) (p : Point) :
    List (Nat × Rect) → List (Nat × Int) × Int → List (Nat × Int) × Int
  | [], acc => acc
  | (id, rect) :: rest, acc =>
    let skip :=
      attached_ids.contains id &&
        (decide (hypotQ sq (p.x - start.x) (p.y - start.y) ≤ 14) ||
         decide (hypotQ sq (p.x - endp.x) (p.y - endp.y) ≤ 14))
    if skip then sampleInner sq start endp attached_ids obstacles p rest acc
    else if !rect.containsP p then sampleInner sq start endp attached_ids obstacles p rest acc
    else
      match obstacles.find? (fun o => o.id = id) with
      | none => sampleInner sq start endp attached_ids obstacles p rest acc
      | some ob =>
        if ob.rect.containsP p then
          sampleInner sq start endp attached_ids obstacles p rest
            (bumpHits acc.1 id, acc.2 + 1)
        else sampleInner sq start endp attached_ids obstacles p rest acc

/-- `render.rs::sample_inside_hits`: 801 parameter-uniform samples, hits
attributed per obstacle id plus a total. -/
def sample_inside_hits (sq : ℚ → ℚ) (start endp : Point) (attached_ids : List Nat)
    (obstacles : List ClosedShapeHit) (point_at : ℚ → Point) :
    List (Nat × Int) × Int :=
  (List.range (800 + 1)).foldl
    (fun acc (i : Nat) =>
      sampleInner sq start endp attached_ids obstacles (point_at ((i : ℚ) / 800))
        (obstacles.map fun o => (o.id, o.rect.inflate 18 18)) acc)
    ([], 0)

/-- The dedup-and-cap loop at the end of `waypoint_candidates`. -/
def dedupCap (sq : ℚ → ℚ) : List Point → List Point → List Point
  | [], out => out
  | p :: rest, out =>
    if out.any (fun q => decide (hypotQ sq (q.x - p.x) (q.y - p.y) < 3)) then
      dedupCap sq rest out
    else
      let out2 := out ++ [p]
      if out2.length ≥ 24 then out2 else dedupCap sq rest out2

/-- The ten per-obstacle candidate points generated by
`waypoint_candidates` for one inflated rect `r` with margin `m`. -/
def obstaclePoints (mid : Point) (r : Rect) (m : ℚ) : List Point :=
  [⟨(r.min_x + r.max_x) * (1/2), r.min_y - m⟩,
   ⟨(r.min_x + r.max_x) * (1/2), r.max_y + m⟩,
   ⟨r.min_x - m, (r.min_y + r.max_y) * (1/2)⟩,
   ⟨r.max_x + m, (r.min_y + r.max_y) * (1/2)⟩,
   ⟨r.min_x - m, r.min_y - m⟩,
   ⟨r.max_x + m, r.min_y - m⟩,
   ⟨r.min_x - m, r.max_y + m⟩,
   ⟨r.max_x + m, r.max_y + m⟩,
   ⟨mid.x, r.min_y - m⟩,
   ⟨mid.x, r.max_y + m⟩]

/-- `render.rs::waypoint_candidates`. -/
def waypoint_candidates (sq : ℚ → ℚ) (start endp : Point)
    (obstacles : List ClosedShapeHit) : List Point :=
  let margin : ℚ := 26
  let mid : Point := ⟨(start.x + endp.x) * (1/2), (start.y + endp.y) * (1/2)⟩
  let primary := obstacles.take 6
  let infl := primary.map fun hit => hit.rect.inflate margin margin
  let points := infl.flatMap fun r => obstaclePoints mid r margin
  let unionPts :=
    match infl with
    | [] => []
    | r0 :: rs =>
      let u := rs.foldl Rect.union r0
      [(⟨(u.min_x + u.max_x) * (1/2), u.min_y - margin * 2⟩ : Point),
       ⟨(u.min_x + u.max_x) * (1/2), u.max_y + margin * 2⟩,
       ⟨u.min_x - margin * 2, (u.min_y + u.max_y) * (1/2)⟩,
       ⟨u.max_x + margin * 2, (u.min_y + u.max_y) * (1/2)⟩]
  let all := points ++ unionPts
  let kept := all.filter fun p =>
    !obstacles.any fun o => (o.rect.inflate margin margin).containsP p
  dedupCap sq kept []

/-- Stable ascending insertion used to model Rust's stable `sort_by_key`:
`x` is placed after every element whose key is `≤` its own. -/
def stableInsert (le : ClosedShapeHit → ClosedShapeHit → Bool) (x : ClosedShapeHit) :
    List ClosedShapeHit → List ClosedShapeHit
  | [] => [x]
  | y :: ys => if le y x then y :: stableInsert le x ys else x :: y :: ys

/-- Stable sort by key (Rust `sort_by_key`, which is stable). -/
def stableSortByKey (key : ClosedShapeHit → Int) (l : List ClosedShapeHit) :
    List ClosedShapeHit :=
  l.foldl (fun acc x => stableInsert (fun a b => decide (key a ≤ key b)) x acc) []

/-- Attributed hit count looked up in `hits_by_id` (0 when absent). -/
def hitsFor (hbi : List (Nat × Int)) (id : Nat) : Int :=
  match hbi.find? (fun pr => pr.1 = id) with
  | some pr => pr.2
  | none => 0

/-- The candidate evaluation of `choose_curved_path`: penetration hits and
the `|c1-start| + |c2-end|` length score for one cubic control pair. -/
def evalCubic (sq : ℚ → ℚ) (start endp : Point) (attached_ids : List Nat)
    (obstacles : List ClosedShapeHit) (pr : Point × Point) : Int × ℚ :=
  let hits := (sample_inside_hits sq start endp attached_ids obstacles
    (fun t => point_at_cubic start pr.1 pr.2 endp t)).2
  let score := hypotQ sq (pr.1.x - start.x) (pr.1.y - start.y) +
    hypotQ sq (pr.2.x - endp.x) (pr.2.y - endp.y)
  (hits, score)

/-- Best-candidate update of `choose_curved_path`: lower hit count wins,
ties broken by lower score, earlier candidates win remaining ties. -/
def bestUpdate (f : Point × Point → Int × ℚ)
    (best : Option ((Point × Point) × Int × ℚ)) (p : Point × Point) :
    Option ((Point × Point) × Int × ℚ) :=
  let r := f p
  match best with
  | none => some (p, r.1, r.2)
  | some (bp, bh, bs) =>
    if r.1 < bh ∨ (r.1 = bh ∧ r.2 < bs) then some (p, r.1, r.2)
    else some (bp, bh, bs)

/-- The candidate loop of `choose_curved_path` with its early return on a
zero-hit cubic: `.inl` is the early return, `.inr` the final best. -/
def chooseLoop (f : Point × Point → Int × ℚ) :
    List (Point × Point) → Option ((Point × Point) × Int × ℚ) →
    (Point × Point) ⊕ Option ((Point × Point) × Int × ℚ)
  | [], best => .inr best
  | p :: rest, best =>
    let r := f p
    let best2 := bestUpdate f best p
    if r.1 = 0 then .inl p else chooseLoop f rest best2

/-- `render.rs::choose_curved_path`. -/
def choose_curved_path (sq : ℚ → ℚ) (start endp quad_control : Point)
    (attached_ids : List Nat) (obstacles : List ClosedShapeHit) : ArrowPath :=
  let qr := sample_inside_hits sq start endp attached_ids obstacles
    (fun t => point_at_quadratic start quad_control endp t)
  let hits_by_id := qr.1
  let quad_hits := qr.2
  if quad_hits = 0 then .Quadratic quad_control
  else
    let ordered := stableSortByKey (fun o => -(hitsFor hits_by_id o.id)) obstacles
    let candidates := waypoint_candidates sq start endp ordered
    let pairs := candidates.flatMap fun w =>
      [cubic_controls_through_midpoint start endp w,
       cubic_controls_pull_toward_waypoint sq start endp w]
    match chooseLoop (evalCubic sq start endp attached_ids obstacles) pairs none with
    | .inl pr => .Cubic pr.1 pr.2
    | .inr (some (pr, h, _)) =>
      if h < quad_hits then .Cubic pr.1 pr.2 else .Quadratic quad_control
    | .inr none => .Quadratic quad_control

/-- `render.rs::quad_control_simple`. -/
def quad_control_simple (sq : ℚ → ℚ) (start endp : Point) : Point :=
  let mid : Point := ⟨(start.x + endp.x) * (1/2), (start.y + endp.y) * (1/2)⟩
  let dx := endp.x - start.x
  let dy := endp.y - start.y
  let len := hypotQ sq dx dy
  if len ≤ 1 / 1000 then mid
  else
    let ux := dx / len
    let uy := dy / len
    let perp : Point := ⟨-uy, ux⟩
    let magnitude := clampQ (len * (22/100)) 18 160
    let sign : ℚ := if dx * dy ≥ 0 then 1 else -1
    ⟨mid.x + perp.x * magnitude * sign, mid.y + perp.y * magnitude * sign⟩

/-- `render.rs::resolve_endpoints`. -/
def resolve_endpoints (shape : Shape) (closed : List ClosedShapeHit) :
    Point × Point × List Nat :=
  let start0 := shape.start
  let end0 := shape.endp
  let (start1, attached1) :=
    match shape.start_attach_id with
    | none => (start0, ([] : List Nat))
    | some id =>
      match closed.find? (fun (t : ClosedShapeHit) => decide (t.id = id)) with
      | none => (start0, [])
      | some target =>
        match shape.start_attach_uv with
        | some uv => (anchor_point_uv target uv, [id])
        | none =>
          let c := target.rect.center
          let dx := end0.x - c.x
          let dy := end0.y - c.y
          (match target.kind with
           | .Ellipse => intersect_ellipse target.rect dx dy
           | .Rectangle | .RoundedRectangle => intersect_rect target.rect dx dy,
           [id])
  let (end1, attached2) :=
    match shape.end_attach_id with
    | none => (end0, attached1)
    | some id =>
      match closed.find? (fun (t : ClosedShapeHit) => decide (t.id = id)) with
      | none => (end0, attached1)
      | some target =>
        let att := if attached1.contains id then attached1 else attached1 ++ [id]
        match shape.end_attach_uv with
        | some uv => (anchor_point_uv target uv, att)
        | none =>
          let c := target.rect.center
          let dx := start1.x - c.x
          let dy := start1.y - c.y
          (match target.kind with
           | .Ellipse => intersect_ellipse target.rect dx dy
           | .Rectangle | .RoundedRectangle => intersect_rect target.rect dx dy,
           att)
  (start1, end1, attached2)

/-- `render.rs::is_arrow_like`. -/
def is_arrow_like : ShapeKind → Bool
  | .Arrow | .CurvedArrow => true
  | _ => false

/-- The loop body of `render_arrows` for a single item, given the closed
shapes of the whole document. -/
def render_one (sq : ℚ → ℚ) (closed : List ClosedShapeHit) (it : Item) :
    Option ArrowRender :=
  match it with
  | .Stroke _ => none
  | .Shape shape =>
    if !is_arrow_like shape.kind then none
    else
      let r := resolve_endpoints shape closed
      let start := r.1
      let endp := r.2.1
      let attached_ids := r.2.2
      let dx := endp.x - start.x
      let dy := endp.y - start.y
      let len := hypotQ sq dx dy
      if len ≤ 1/2 then none
      else
        let path :=
          match shape.kind with
          | .Arrow => ArrowPath.Line
          | .CurvedArrow =>
            choose_curved_path sq start endp (quad_control_simple sq start endp)
              attached_ids closed
          | _ => ArrowPath.Line
        let tan :=
          match path with
          | .Line => (dx, dy)
          | .Quadratic control => (endp.x - control.x, endp.y - control.y)
          | .Cubic _ c2 => (endp.x - c2.x, endp.y - c2.y)
        let heads := compute_arrowhead sq endp tan.1 tan.2 shape.style.stroke_width
        some
          { shape_id := shape.id, style := shape.style, start := start, endp := endp
            path := path, head_left := heads.1, head_right := heads.2 }

/-- `render.rs::render_arrows`. -/
def render_arrows (sq : ℚ → ℚ) (items : List Item) : List ArrowRender :=
  items.filterMap (render_one sq (collect_closed_shapes items))

/-- `render.rs::arrow_obstacle_ids`. -/
def arrow_obstacle_ids (items : List Item) (arrow_shape_id : Nat) :
    List Nat :=
  let closed := collect_closed_shapes items
  let rec go : List Item → List Nat
    | [] => []
    | .Stroke _ :: rest => go rest
    | .Shape sh :: rest =>
      if sh.id ≠ arrow_shape_id then go rest
      else if !is_arrow_like sh.kind then []
      else
        let r := resolve_endpoints sh closed
        ((closed.map (fun s => s.id)).filter fun id => !r.2.2.contains id).mergeSort
          (fun a b => a ≤ b)
  go items

/-! ### Concrete fixtures used by witnesses and counterexamples -/

/-- A concrete color. -/
def cRed : ColorRgba8 := ⟨255, 0, 0, 255⟩

/-- A concrete style. -/
def styleA : ShapeStyle := ⟨cRed, 3, false, cRed, false, 0⟩

/-! ### Helper lemmas on lists and the store -/

theorem foldl_max_init_le (l : List Nat) : ∀ init, init ≤ l.foldl max init := by
  induction l with
  | nil => intro init; exact le_refl _
  | cons x xs ih =>
    intro init
    exact le_trans (le_max_left init x) (ih (max init x))

theorem le_foldl_max (l : List Nat) : ∀ init a, a ∈ l → a ≤ l.foldl max init := by
  induction l with
  | nil => intro init a h; cases h
  | cons x xs ih =>
    intro init a h
    rcases List.mem_cons.mp h with rfl | h
    · exact le_trans (le_max_right init a) (foldl_max_init_le xs (max init a))
    · exact ih _ a h

theorem foldl_max_mem (l : List Nat) : ∀ init, l.foldl max init = init ∨ l.foldl max init ∈ l := by
  induction l with
  | nil => intro init; left; rfl
  | cons x xs ih =>
    intro init
    simp only [List.foldl_cons]
    rcases ih (max init x) with h | h
    · rcases max_cases init x with ⟨he, _⟩ | ⟨he, _⟩
      · left; rw [h, he]
      · right; rw [h, he]; exact List.mem_cons_self _ _
    · right; exact List.mem_cons_of_mem _ h

/-! ### C4: id allocation after `load_document` -/

/-- A call to one of the two id-allocating operations. -/
inductive BeginOp where
  | strokeOp (color : ColorRgba8) (width : ℚ) (start : Point)
  | shapeOp (kind : ShapeKind) (style : ShapeStyle) (start : Point)

/-- Run a sequence of `begin_stroke` / `begin_shape` calls, collecting the
ids of the returned strokes and shapes. -/
def runBegins (s : Store) : List BeginOp → Store × List Nat
  | [] => (s, [])
  | op :: rest =>
    let r : Store × Nat :=
      match op with
      | .strokeOp c w p => ((Store.begin_stroke s c w p).1, (Store.begin_stroke s c w p).2.id)
      | .shapeOp k st p => ((Store.begin_shape s k st p).1, (Store.begin_shape s k st p).2.id)
    let rr := runBegins r.1 rest
    (rr.1, r.2 :: rr.2)

theorem satSucc_le_U64MAX (n : Nat) : satSucc n ≤ U64MAX := by
  simp [satSucc]

theorem le_satSucc (n : Nat) (h : n ≤ U64MAX) : n ≤ satSucc n := by
  simp only [satSucc]
  omega

theorem runBegins_ids_ge (ops : List BeginOp) :
    ∀ s : Store, s.next_id ≤ U64MAX →
      ∀ x ∈ (runBegins s ops).2, s.next_id ≤ x := by
  induction ops with
  | nil => intro s _ x hx; simp [runBegins] at hx
  | cons op rest ih =>
    intro s hs x hx
    cases op with
    | strokeOp c w p =>
      simp only [runBegins, Store.begin_stroke, List.mem_cons] at hx
      rcases hx with rfl | hx
      · exact le_refl _
      · have h2 := ih { s with next_id := satSucc s.next_id } (satSucc_le_U64MAX _) x hx
        exact le_trans (le_satSucc _ hs) h2
    | shapeOp k st p =>
      simp only [runBegins, Store.begin_shape, List.mem_cons] at hx
      rcases hx with rfl | hx
      · exact le_refl _
      · have h2 := ih { s with next_id := satSucc s.next_id } (satSucc_le_U64MAX _) x hx
        exact le_trans (le_satSucc _ hs) h2

/-- C4 (amended): after `load_document`, provided no document id equals
`u64::MAX`, both journals are empty, `next_id` is strictly greater than
every document id (and positive, covering the empty document), and the id
of every subsequently begun stroke or shape differs from every document
id. -/
theorem load_document_fresh_ids (s : Store) (doc : Document)
    (hmax : (doc.items.map Item.itemId).all (fun id => decide (id < U64MAX)) = true) :
    (Store.load_document s doc).undo = [] ∧
    (Store.load_document s doc).redo = [] ∧
    0 < (Store.load_document s doc).next_id ∧
    (∀ id ∈ doc.items.map Item.itemId, id < (Store.load_document s doc).next_id) ∧
    (∀ ops : List BeginOp,
      ∀ x ∈ (runBegins (Store.load_document s doc) ops).2,
        ∀ id ∈ doc.items.map Item.itemId, x ≠ id) := by
  have hmax' : ∀ id ∈ doc.items.map Item.itemId, id < U64MAX := by
    intro id hid
    have := List.all_eq_true.mp hmax id hid
    exact of_decide_eq_true this
  set m := (doc.items.map Item.itemId).foldl max 0 with hm
  have hmlt : m < U64MAX := by
    rcases foldl_max_mem (doc.items.map Item.itemId) 0 with h | h
    · rw [hm, h]; simp [U64MAX]
    · exact hmax' _ h
  have hnext : (Store.load_document s doc).next_id = m + 1 := by
    simp only [Store.load_document, satSucc, ← hm]
    omega
  have hidlt : ∀ id ∈ doc.items.map Item.itemId, id < (Store.load_document s doc).next_id := by
    intro id hid
    rw [hnext]
    exact Nat.lt_succ_of_le (le_foldl_max _ 0 id hid)
  refine ⟨rfl, rfl, ?_, hidlt, ?_⟩
  · rw [hnext]; omega
  · intro ops x hx id hid
    have hle : (Store.load_document s doc).next_id ≤ x := by
      refine runBegins_ids_ge ops _ ?_ x hx
      rw [hnext]; omega
    have := hidlt id hid
    omega

/-- A document whose single stroke carries the maximal `u64` id. -/
def docMax : Document := ⟨2, [.Stroke ⟨U64MAX, cRed, 1, [⟨0, 0⟩]⟩]⟩

/-- C4 counterexample: loading a document holding id `u64::MAX` leaves
`next_id` equal to that id (saturation), so it is not strictly greater,
and the next `begin_stroke` allocates an id already present. -/
theorem load_document_fresh_ids_cex :
    (Store.load_document Store.new docMax).next_id = U64MAX ∧
    ¬ (U64MAX < (Store.load_document Store.new docMax).next_id) ∧
    (Store.begin_stroke (Store.load_document Store.new docMax) cRed 1 ⟨0, 0⟩).2.id
      = (docMax.items.map Item.itemId).foldl max 0 := by
  refine ⟨?_, ?_, ?_⟩ <;> simp [Store.load_document, Store.begin_stroke, Store.new,
    docMax, satSucc, Item.itemId, U64MAX]

/-- A small concrete document for the C4 witness. -/
def docSeven : Document := ⟨2, [.Stroke ⟨7, cRed, 1, [⟨0, 0⟩]⟩]⟩

/-- C4 witness: the amended theorem applied at a concrete document. -/
theorem load_document_fresh_ids_witness :
    ((docSeven.items.map Item.itemId).all (fun id => decide (id < U64MAX)) = true) ∧
    (Store.load_document Store.new docSeven).undo = [] ∧
    (Store.load_document Store.new docSeven).redo = [] := by
  have h := load_document_fresh_ids Store.new docSeven (by decide)
  exact ⟨by decide, h.1, h.2.1⟩

/-! ### C3: `commit_shape` update-or-append -/

/-- Whether an item is a `Shape` carrying the given id (the condition of
the `find_map` in `Store::commit_shape`). -/
def shapeWithId (id : Nat) : Item → Bool
  | .Shape sh => decide (sh.id = id)
  | .Stroke _ => false

theorem findShapeIdx_eq_none (id : Nat) (l : List Item)
    (h : ∀ it ∈ l, shapeWithId id it = false) :
    ∀ n, Store.findShapeIdx id l n = none := by
  induction l with
  | nil => intro n; rfl
  | cons x rest ih =>
    intro n
    have hx := h x (List.mem_cons_self _ _)
    have hr : ∀ it ∈ rest, shapeWithId id it = false := fun it hit =>
      h it (List.mem_cons_of_mem _ hit)
    cases x with
    | Stroke st => exact ih hr (n + 1)
    | Shape sh =>
      have : ¬ sh.id = id := by
        simpa [shapeWithId] using hx
      simp only [Store.findShapeIdx, if_neg this]
      exact ih hr (n + 1)

theorem findShapeIdx_eq_some (id : Nat) (l : List Item) :
    ∀ i b, l.get? i = some b → shapeWithId id b = true →
      (∀ j, j < i → ∀ bj, l.get? j = some bj → shapeWithId id bj = false) →
      ∀ n, Store.findShapeIdx id l n = some (n + i, b) := by
  induction l with
  | nil => intro i b hb; simp at hb
  | cons x rest ih =>
    intro i b hb hsb hprev n
    cases i with
    | zero =>
      have hxb : b = x := by
        simp only [List.get?_cons_zero] at hb
        exact (Option.some.inj hb).symm
      subst hxb
      cases b with
      | Stroke st => simp [shapeWithId] at hsb
      | Shape sh =>
        have hid : sh.id = id := by simpa [shapeWithId] using hsb
        simp [Store.findShapeIdx, hid]
    | succ i' =>
      have hx : shapeWithId id x = false := hprev 0 (Nat.succ_pos _) x rfl
      have hb' : rest.get? i' = some b := hb
      have hprev' : ∀ j, j < i' → ∀ bj, rest.get? j = some bj → shapeWithId id bj = false := by
        intro j hj bj hbj
        exact hprev (j + 1) (Nat.succ_lt_succ hj) bj hbj
      have harr := ih i' b hb' hsb hprev' (n + 1)
      have hn : n + 1 + i' = n + (i' + 1) := by omega
      cases x with
      | Stroke st =>
        simp only [Store.findShapeIdx]
        rw [harr, hn]
      | Shape sh =>
        have hne : ¬ sh.id = id := by simpa [shapeWithId] using hx
        simp only [Store.findShapeIdx, if_neg hne]
        rw [harr, hn]

/-- C3 (amended): `commit_shape` updates in place (same index, same item
count, journaled as `ReplaceItem`) exactly when some existing *Shape* item
carries the same id, taking the first such index; otherwise — including
when only a Stroke carries that id — it appends the shape as the new last
item, journaled as `AddItem`. -/
theorem commit_shape_update_or_append (s : Store) (sh : Shape) :
    ((∀ it ∈ s.items, shapeWithId sh.id it = false) →
      (Store.commit_shape s sh).items = s.items ++ [Item.Shape sh] ∧
      (Store.commit_shape s sh).undo = Edit.AddItem (Item.Shape sh) :: s.undo) ∧
    (∀ i b, s.items.get? i = some b → shapeWithId sh.id b = true →
      (∀ j, j < i → ∀ bj, s.items.get? j = some bj → shapeWithId sh.id bj = false) →
      (Store.commit_shape s sh).items = s.items.set i (Item.Shape sh) ∧
      (Store.commit_shape s sh).items.length = s.items.length ∧
      (Store.commit_shape s sh).undo = Edit.ReplaceItem i b (Item.Shape sh) :: s.undo) := by
  constructor
  · intro h
    have hnone := findShapeIdx_eq_none sh.id s.items h 0
    simp [Store.commit_shape, hnone, Store.apply, applyNoHistory]
  · intro i b hb hsb hprev
    have hsome := findShapeIdx_eq_some sh.id s.items i b hb hsb hprev 0
    have hi : i < s.items.length := by
      by_contra hge
      rw [List.get?_eq_none.mpr (Nat.le_of_not_lt hge)] at hb
      exact Option.noConfusion hb
    rw [Nat.zero_add] at hsome
    refine ⟨?_, ?_, ?_⟩ <;>
      simp [Store.commit_shape, hsome, Store.apply, applyNoHistory, if_pos hi]

/-- A store whose only item is a Stroke with id 5. -/
def storeStroke5 : Store := ⟨[.Stroke ⟨5, cRed, 2, [⟨0, 0⟩]⟩], [], [], 6⟩

/-- A shape carrying the same id 5. -/
def shapeFive : Shape :=
  { id := 5, kind := .Rectangle, style := styleA, start := ⟨0, 0⟩, endp := ⟨10, 10⟩
    start_attach_id := none, end_attach_id := none
    start_attach_uv := none, end_attach_uv := none
    text := "", text_align_h := .Center, text_align_v := .Middle }

/-- C3 counterexample: id 5 is already present among the items (on a
Stroke), yet `commit_shape` appends (item count grows, journaled as
`AddItem`) instead of updating in place. -/
theorem commit_shape_update_or_append_cex :
    5 ∈ storeStroke5.items.map Item.itemId ∧
    (Store.commit_shape storeStroke5 shapeFive).items.length ≠ storeStroke5.items.length ∧
    (Store.commit_shape storeStroke5 shapeFive).undo =
      Edit.AddItem (Item.Shape shapeFive) :: storeStroke5.undo := by
  refine ⟨by decide, by decide, by decide⟩

/-- A store whose only item is a Shape with id 5. -/
def storeShape5 : Store := ⟨[.Shape shapeFive], [], [], 6⟩

/-- The same shape id with different geometry, recommitted. -/
def shapeFiveMoved : Shape := { shapeFive with endp := ⟨20, 20⟩ }

/-- C3 witness: the amended theorem applied at two concrete stores, one
hitting the append branch and one hitting the in-place update branch. -/
theorem commit_shape_update_or_append_witness :
    ((Store.commit_shape storeStroke5 shapeFive).items =
      storeStroke5.items ++ [Item.Shape shapeFive]) ∧
    ((Store.commit_shape storeShape5 shapeFiveMoved).items =
      storeShape5.items.set 0 (Item.Shape shapeFiveMoved)) ∧
    ((Store.commit_shape storeShape5 shapeFiveMoved).items.length =
      storeShape5.items.length) := by
  have h1 := (commit_shape_update_or_append storeStroke5 shapeFive).1 (by decide)
  have h2 := (commit_shape_update_or_append storeShape5 shapeFiveMoved).2 0
    (Item.Shape shapeFive) (by decide) (by decide)
    (by intro j hj bj hbj; omega)
  exact ⟨h1.1, h2.1, h2.2.1⟩

/-! ### C5 and C10: `erase_at` -/

theorem filter_keep_eq_self (g : Item → Bool) (l : List Item) :
    l.filter (fun it => !g it) = l ↔ ∀ it ∈ l, g it = false := by
  constructor
  · intro h it hit
    have := List.filter_eq_self.mp h it hit
    simpa using this
  · intro h
    apply List.filter_eq_self.mpr
    intro it hit
    simp [h it hit]

/-- C5: `erase_at` returns `false` exactly when no item passes the §4.2
hit test at the given radius; a `false` return leaves the items and the
undo journal untouched, and a `true` return pushes exactly one
`ReplaceAll(before, after)` onto the undo journal, every dropped item
having passed the hit test. -/
theorem erase_at_spec (sq : ℚ → ℚ) (s : Store) (p : Point) (radius : ℚ) :
    ((Store.erase_at sq s p radius).2 = false ↔
      ∀ it ∈ s.items, item_intersects_point sq it p (radius * radius) = false) ∧
    ((Store.erase_at sq s p radius).2 = false →
      (Store.erase_at sq s p radius).1.items = s.items ∧
      (Store.erase_at sq s p radius).1.undo = s.undo) ∧
    ((Store.erase_at sq s p radius).2 = true →
      (Store.erase_at sq s p radius).1.undo =
        Edit.ReplaceAll s.items ((Store.erase_at sq s p radius).1.items) :: s.undo ∧
      ∀ it ∈ s.items, it ∉ (Store.erase_at sq s p radius).1.items →
        item_intersects_point sq it p (radius * radius) = true) := by
  by_cases hemp : s.items = []
  · refine ⟨?_, ?_, ?_⟩
    · simp [Store.erase_at, hemp]
    · intro _; simp [Store.erase_at, hemp]
    · intro htrue; simp [Store.erase_at, hemp] at htrue
  · by_cases heq : s.items =
      s.items.filter (fun it => !item_intersects_point sq it p (radius * radius))
    · refine ⟨?_, ?_, ?_⟩
      · simp only [Store.erase_at, if_neg hemp, if_pos heq]
        simpa using (filter_keep_eq_self
          (fun it => item_intersects_point sq it p (radius * radius)) s.items).mp heq.symm
      · intro _
        simp [Store.erase_at, if_neg hemp, if_pos heq, ← heq]
      · intro htrue
        simp [Store.erase_at, if_neg hemp, if_pos heq] at htrue
    · refine ⟨?_, ?_, ?_⟩
      · simp only [Store.erase_at, if_neg hemp, if_neg heq]
        constructor
        · intro h; exact absurd h (by simp)
        · intro hall
          exact absurd ((filter_keep_eq_self _ s.items).mpr hall).symm heq
      · intro hfalse
        simp [Store.erase_at, if_neg hemp, if_neg heq] at hfalse
      · intro _
        refine ⟨by simp [Store.erase_at, if_neg hemp, if_neg heq, Store.apply, applyNoHistory], ?_⟩
        intro it hin hout
        by_contra hne
        have hflt : item_intersects_point sq it p (radius * radius) = false :=
          Bool.eq_false_iff.mpr hne
        apply hout
        simp only [Store.erase_at, if_neg hemp, if_neg heq, Store.apply, applyNoHistory]
        exact List.mem_filter.mpr ⟨hin, by simp [hflt]⟩

/-- A store with one stroke far from the probe point. -/
def storeFarStroke : Store := ⟨[.Stroke ⟨1, cRed, 1, [⟨100, 100⟩]⟩], [], [], 2⟩

/-- C5 witness: `erase_at` at a probe far from everything returns `false`
and leaves the item list unchanged. -/
theorem erase_at_spec_witness :
    (Store.erase_at ratSqrt storeFarStroke ⟨0, 0⟩ 1).2 = false ∧
    (Store.erase_at ratSqrt storeFarStroke ⟨0, 0⟩ 1).1.items = storeFarStroke.items := by
  have h := erase_at_spec ratSqrt storeFarStroke ⟨0, 0⟩ 1
  have hf : (Store.erase_at ratSqrt storeFarStroke ⟨0, 0⟩ 1).2 = false :=
    h.1.mpr (by decide)
  exact ⟨hf, (h.2.1 hf).1⟩

/-- C10: a `false`-returning `erase_at` leaves the whole store untouched —
items, undo journal and redo journal — so in particular `can_redo` is
preserved (a successful mutation would have cleared the redo journal). -/
theorem erase_at_false_frame (sq : ℚ → ℚ) (s : Store) (p : Point) (radius : ℚ)
    (h : (Store.erase_at sq s p radius).2 = false) :
    (Store.erase_at sq s p radius).1 = s ∧
    Store.can_redo (Store.erase_at sq s p radius).1 = Store.can_redo s := by
  by_cases hemp : s.items = []
  · simp [Store.erase_at, hemp]
  · by_cases heq : s.items =
      s.items.filter (fun it => !item_intersects_point sq it p (radius * radius))
    · have : (Store.erase_at sq s p radius).1 = s := by
        simp [Store.erase_at, if_neg hemp, if_pos heq, ← heq]
      exact ⟨this, by rw [this]⟩
    · exfalso
      simp [Store.erase_at, if_neg hemp, if_neg heq] at h

/-- A store with a redo entry and one far rectangle, for the C10 witness. -/
def storeFarRect : Store :=
  ⟨[.Shape { shapeFive with id := 9, start := ⟨200, 200⟩, endp := ⟨300, 260⟩ }],
   [], [Edit.AddItem (.Stroke ⟨1, cRed, 1, [⟨0, 0⟩]⟩)], 10⟩

/-- C10 witness: a miss against a store with a pending redo entry leaves
the store — redo journal included — exactly as it was. -/
theorem erase_at_false_frame_witness :
    (Store.erase_at ratSqrt storeFarRect ⟨0, 0⟩ 1).2 = false ∧
    (Store.erase_at ratSqrt storeFarRect ⟨0, 0⟩ 1).1 = storeFarRect := by
  have hf : (Store.erase_at ratSqrt storeFarRect ⟨0, 0⟩ 1).2 = false := by decide
  exact ⟨hf, (erase_at_false_frame ratSqrt storeFarRect ⟨0, 0⟩ 1 hf).1⟩

/-! ### C1: undo/redo round-trips over mutation sequences -/

/-- One mutation of the Store API. -/
inductive Mutation where
  | commitStroke (st : Stroke)
  | commitShape (sh : Shape)
  | eraseAt (p : Point) (radius : ℚ)
  | clearAll

/-- Apply one mutation (the boolean result of `erase_at` is dropped). -/
def applyMutation (sq : ℚ → ℚ) (s : Store) : Mutation → Store
  | .commitStroke st => Store.commit_stroke s st
  | .commitShape sh => Store.commit_shape s sh
  | .eraseAt p r => (Store.erase_at sq s p r).1
  | .clearAll => Store.clear_all s

/-- Apply a mutation sequence in order. -/
def runMutations (sq : ℚ → ℚ) (s : Store) : List Mutation → Store
  | [] => s
  | m :: rest => runMutations sq (applyMutation sq s m) rest

/-- Call `undo` n times. -/
def undoN : Nat → Store → Store
  | 0, s => s
  | n + 1, s => Store.undoStep (undoN n s)

/-- Call `redo` n times. -/
def redoN : Nat → Store → Store
  | 0, s => s
  | n + 1, s => Store.redoStep (redoN n s)

/-- The journal entry a mutation pushes. -/
def editOf (sq : ℚ → ℚ) (s : Store) : Mutation → Edit
  | .commitStroke st => .AddItem (.Stroke st)
  | .commitShape sh =>
    match Store.findShapeIdx sh.id s.items 0 with
    | some (i, b) => .ReplaceItem i b (.Shape sh)
    | none => .AddItem (.Shape sh)
  | .eraseAt p r => .ReplaceAll s.items ((Store.erase_at sq s p r).1.items)
  | .clearAll => .ReplaceAll s.items []

/-- The inverse edit `undo` records for a mutation's entry. -/
def invOf (sq : ℚ → ℚ) (s : Store) : Mutation → Edit
  | .commitStroke st => .RemoveItem s.items.length (.Stroke st)
  | .commitShape sh =>
    match Store.findShapeIdx sh.id s.items 0 with
    | some (i, b) => .ReplaceItem i (.Shape sh) b
    | none => .RemoveItem s.items.length (.Shape sh)
  | .eraseAt p r => .ReplaceAll ((Store.erase_at sq s p r).1.items) s.items
  | .clearAll => .ReplaceAll [] s.items

/-- The redo journal contents after undoing a whole mutation sequence. -/
def invList (sq : ℚ → ℚ) : Store → List Mutation → List Edit
  | _, [] => []
  | s, m :: rest => invOf sq s m :: invList sq (applyMutation sq s m) rest

/-- Side conditions under which a mutation's journal entry is exactly
invertible: a committed stroke must not duplicate an existing item by
value, and an `erase_at` must actually remove something (else it journals
nothing). -/
def okMut (sq : ℚ → ℚ) (s : Store) : Mutation → Bool
  | .commitStroke st => decide (Item.Stroke st ∉ s.items)
  | .commitShape _ => true
  | .eraseAt p r => (Store.erase_at sq s p r).2
  | .clearAll => true

/-- `okMut` holding along the whole execution of a mutation sequence. -/
def goodSeq (sq : ℚ → ℚ) : Store → List Mutation → Bool
  | _, [] => true
  | s, m :: rest => okMut sq s m && goodSeq sq (applyMutation sq s m) rest

theorem posAux_append (x : Item) (l : List Item) (hx : x ∉ l) :
    ∀ n, posAux x (l ++ [x]) n = some (n + l.length) := by
  induction l with
  | nil => intro n; simp [posAux]
  | cons y ys ih =>
    intro n
    have hyx : ¬ y = x := fun h => hx (h ▸ List.mem_cons_self _ _)
    have hys : x ∉ ys := fun h => hx (List.mem_cons_of_mem _ h)
    show (if y = x then some n else posAux x (ys ++ [x]) (n + 1)) =
      some (n + (y :: ys).length)
    rw [if_neg hyx, ih hys (n + 1)]
    congr 1
    simp only [List.length_cons]
    omega

theorem removeAt_append_length (l : List Item) (x : Item) :
    removeAt (l ++ [x]) l.length = l := by
  induction l with
  | nil => rfl
  | cons y ys ih =>
    simp only [removeAt, List.cons_append, List.length_cons, List.take_succ_cons,
      List.drop_succ_cons] at ih ⊢
    exact congrArg (y :: ·) ih

theorem insertAt_length (l : List Item) (x : Item) : insertAt l l.length x = l ++ [x] := by
  simp [insertAt, List.take_length, List.drop_length]

theorem set_get_self (l : List Item) : ∀ i b, l.get? i = some b → l.set i b = l := by
  induction l with
  | nil => intro i b h; simp at h
  | cons y ys ih =>
    intro i b h
    cases i with
    | zero =>
      have : b = y := by
        simp only [List.get?_cons_zero] at h
        exact (Option.some.inj h).symm
      simp [this]
    | succ i' =>
      simp only [List.get?_cons_succ] at h
      simp [ih i' b h]

theorem findShapeIdx_some_get (id : Nat) (l : List Item) :
    ∀ n j b, Store.findShapeIdx id l n = some (j, b) →
      ∃ i, j = n + i ∧ l.get? i = some b := by
  induction l with
  | nil => intro n j b h; simp [Store.findShapeIdx] at h
  | cons x rest ih =>
    intro n j b h
    cases x with
    | Stroke st =>
      obtain ⟨i, hi, hg⟩ := ih (n + 1) j b h
      exact ⟨i + 1, by omega, hg⟩
    | Shape sh =>
      by_cases hid : sh.id = id
      · simp only [Store.findShapeIdx, if_pos hid] at h
        obtain ⟨hj, hb⟩ := Prod.mk.injEq .. ▸ (Option.some.inj h)
        exact ⟨0, by omega, by rw [← hb]; rfl⟩
      · simp only [Store.findShapeIdx, if_neg hid] at h
        obtain ⟨i, hi, hg⟩ := ih (n + 1) j b h
        exact ⟨i + 1, by omega, hg⟩

theorem findShapeIdx_none_not_mem (sh : Shape) (l : List Item) :
    ∀ n, Store.findShapeIdx sh.id l n = none → Item.Shape sh ∉ l := by
  induction l with
  | nil => intro n _ h; cases h
  | cons x rest ih =>
    intro n h hmem
    cases x with
    | Stroke st =>
      rcases List.mem_cons.mp hmem with heq | hmem'
      · exact Item.noConfusion heq
      · exact ih (n + 1) h hmem'
    | Shape sh2 =>
      by_cases hid : sh2.id = sh.id
      · simp [Store.findShapeIdx, hid] at h
      · rcases List.mem_cons.mp hmem with heq | hmem'
        · have : sh2 = sh := by injection heq.symm
          exact hid (congrArg Shape.id this)
        · simp only [Store.findShapeIdx, if_neg hid] at h
          exact ih (n + 1) h hmem'

theorem applyMutation_eq (sq : ℚ → ℚ) (s : Store) (m : Mutation)
    (h : okMut sq s m = true) :
    applyMutation sq s m =
      ⟨applyNoHistory (editOf sq s m) s.items, editOf sq s m :: s.undo, [],
        s.next_id⟩ := by
  cases m with
  | commitStroke st =>
    simp [applyMutation, Store.commit_stroke, Store.apply, editOf]
  | commitShape sh =>
    cases hfs : Store.findShapeIdx sh.id s.items 0 with
    | none => simp [applyMutation, Store.commit_shape, hfs, Store.apply, editOf]
    | some ib =>
      obtain ⟨i, b⟩ := ib
      simp [applyMutation, Store.commit_shape, hfs, Store.apply, editOf]
  | clearAll => simp [applyMutation, Store.clear_all, Store.apply, editOf]
  | eraseAt p r =>
    by_cases hemp : s.items = []
    · simp [okMut, Store.erase_at, hemp] at h
    · by_cases heq : s.items =
        s.items.filter (fun it => !item_intersects_point sq it p (r * r))
      · simp [okMut, Store.erase_at, if_neg hemp, if_pos heq] at h
      · have hitems : (Store.erase_at sq s p r).1.items =
            s.items.filter (fun it => !item_intersects_point sq it p (r * r)) := by
          simp [Store.erase_at, if_neg hemp, if_neg heq, Store.apply, applyNoHistory]
        simp [applyMutation, Store.erase_at, if_neg hemp, if_neg heq, Store.apply,
          applyNoHistory, editOf, hitems]

theorem unapply_editOf (sq : ℚ → ℚ) (s : Store) (m : Mutation)
    (h : okMut sq s m = true) :
    unapplyEdit (editOf sq s m) (applyNoHistory (editOf sq s m) s.items) =
      (s.items, invOf sq s m) := by
  cases m with
  | commitStroke st =>
    have hx : Item.Stroke st ∉ s.items := by simpa [okMut] using h
    simp only [editOf, applyNoHistory, unapplyEdit, invOf]
    rw [posAux_append _ _ hx 0]
    simp only [Option.getD_some, Nat.zero_add, List.length_append, List.length_cons,
      List.length_nil]
    rw [if_pos (by omega)]
    rw [removeAt_append_length]
  | commitShape sh =>
    cases hfs : Store.findShapeIdx sh.id s.items 0 with
    | none =>
      have hx : Item.Shape sh ∉ s.items := findShapeIdx_none_not_mem sh s.items 0 hfs
      simp only [editOf, hfs, applyNoHistory, unapplyEdit, invOf]
      rw [posAux_append _ _ hx 0]
      simp only [Option.getD_some, Nat.zero_add, List.length_append, List.length_cons,
        List.length_nil]
      rw [if_pos (by omega)]
      rw [removeAt_append_length]
    | some ib =>
      obtain ⟨i, b⟩ := ib
      obtain ⟨i', hi', hget⟩ := findShapeIdx_some_get sh.id s.items 0 i b hfs
      have hii : i = i' := by omega
      subst hii
      have hlt : i < s.items.length := by
        by_contra hge
        rw [List.get?_eq_none.mpr (Nat.le_of_not_lt hge)] at hget
        exact Option.noConfusion hget
      simp only [editOf, hfs, applyNoHistory, unapplyEdit, invOf]
      rw [if_pos hlt]
      rw [if_pos (by simpa using hlt)]
      rw [List.set_set, set_get_self s.items i b hget]
  | clearAll => simp [editOf, applyNoHistory, unapplyEdit, invOf]
  | eraseAt p r => simp [editOf, applyNoHistory, unapplyEdit, invOf]

theorem unapply_invOf (sq : ℚ → ℚ) (s : Store) (m : Mutation)
    (h : okMut sq s m = true) :
    unapplyEdit (invOf sq s m) s.items =
      (applyNoHistory (editOf sq s m) s.items, editOf sq s m) := by
  cases m with
  | commitStroke st =>
    simp only [invOf, unapplyEdit, editOf, applyNoHistory, Nat.min_self]
    rw [insertAt_length]
  | commitShape sh =>
    cases hfs : Store.findShapeIdx sh.id s.items 0 with
    | none =>
      simp only [invOf, hfs, unapplyEdit, editOf, applyNoHistory, Nat.min_self]
      rw [insertAt_length]
    | some ib =>
      obtain ⟨i, b⟩ := ib
      obtain ⟨i', hi', hget⟩ := findShapeIdx_some_get sh.id s.items 0 i b hfs
      have hii : i = i' := by omega
      subst hii
      have hlt : i < s.items.length := by
        by_contra hge
        rw [List.get?_eq_none.mpr (Nat.le_of_not_lt hge)] at hget
        exact Option.noConfusion hget
      simp [invOf, hfs, unapplyEdit, editOf, applyNoHistory, hlt]
  | clearAll => simp [invOf, unapplyEdit, editOf, applyNoHistory]
  | eraseAt p r => simp [invOf, unapplyEdit, editOf, applyNoHistory]

theorem redoN_succ_inner (n : Nat) (s : Store) :
    redoN (n + 1) s = redoN n (Store.redoStep s) := by
  induction n generalizing s with
  | zero => rfl
  | succ k ih =>
    show Store.redoStep (redoN (k + 1) s) = Store.redoStep (redoN k (Store.redoStep s))
    rw [ih s]

theorem undo_all (sq : ℚ → ℚ) :
    ∀ (ms : List Mutation) (s : Store), goodSeq sq s ms = true →
      undoN ms.length (runMutations sq s ms) =
        ⟨s.items, s.undo, invList sq s ms ++ (runMutations sq s ms).redo,
          s.next_id⟩ := by
  intro ms
  induction ms with
  | nil =>
    intro s _
    show s = ⟨s.items, s.undo, [] ++ s.redo, s.next_id⟩
    simp
  | cons m rest ih =>
    intro s h
    have hsplit : okMut sq s m = true ∧ goodSeq sq (applyMutation sq s m) rest = true := by
      simpa [goodSeq, Bool.and_eq_true] using h
    obtain ⟨hok, hrest⟩ := hsplit
    have hA := applyMutation_eq sq s m hok
    show Store.undoStep (undoN rest.length (runMutations sq (applyMutation sq s m) rest)) =
      ⟨s.items, s.undo,
        (invOf sq s m :: invList sq (applyMutation sq s m) rest) ++
          (runMutations sq (applyMutation sq s m) rest).redo, s.next_id⟩
    rw [ih (applyMutation sq s m) hrest]
    rw [hA]
    simp only [Store.undoStep]
    rw [unapply_editOf sq s m hok]
    simp [List.cons_append]

theorem redo_all (sq : ℚ → ℚ) :
    ∀ (ms : List Mutation) (s : Store), goodSeq sq s ms = true →
      ∀ (u0 r0 : List Edit) (nid : Nat),
        (redoN ms.length ⟨s.items, u0, invList sq s ms ++ r0, nid⟩).items =
          (runMutations sq s ms).items := by
  intro ms
  induction ms with
  | nil => intro s _ u0 r0 nid; rfl
  | cons m rest ih =>
    intro s h u0 r0 nid
    have hsplit : okMut sq s m = true ∧ goodSeq sq (applyMutation sq s m) rest = true := by
      simpa [goodSeq, Bool.and_eq_true] using h
    obtain ⟨hok, hrest⟩ := hsplit
    have hA := applyMutation_eq sq s m hok
    rw [hA] at hrest
    show (redoN (rest.length + 1)
        ⟨s.items, u0,
          (invOf sq s m :: invList sq (applyMutation sq s m) rest) ++ r0, nid⟩).items =
      (runMutations sq (applyMutation sq s m) rest).items
    rw [hA, redoN_succ_inner]
    have hstep : Store.redoStep
        ⟨s.items, u0,
          (invOf sq s m ::
            invList sq
              ⟨applyNoHistory (editOf sq s m) s.items, editOf sq s m :: s.undo, [],
                s.next_id⟩ rest) ++ r0, nid⟩ =
        ⟨applyNoHistory (editOf sq s m) s.items, editOf sq s m :: u0,
          invList sq
            ⟨applyNoHistory (editOf sq s m) s.items, editOf sq s m :: s.undo, [],
              s.next_id⟩ rest ++ r0, nid⟩ := by
      simp only [List.cons_append, Store.redoStep]
      rw [unapply_invOf sq s m hok]
    rw [hstep]
    exact ih ⟨applyNoHistory (editOf sq s m) s.items, editOf sq s m :: s.undo, [],
      s.next_id⟩ hrest (editOf sq s m :: u0) r0 nid

/-- C1 (amended): for any initial store and mutation sequence M in which
every committed stroke is not value-equal to an item already present and
every `erase_at` actually removes something, applying M then `undo` n times
restores the initial item list exactly, and `redo` n times then restores
the item list obtained right after M. -/
theorem mutations_undo_redo_roundtrip (sq : ℚ → ℚ) (s : Store) (ms : List Mutation)
    (h : goodSeq sq s ms = true) :
    (undoN ms.length (runMutations sq s ms)).items = s.items ∧
    (redoN ms.length (undoN ms.length (runMutations sq s ms))).items =
      (runMutations sq s ms).items := by
  have hu := undo_all sq ms s h
  constructor
  · rw [hu]
  · rw [hu]
    exact redo_all sq ms s h s.undo (runMutations sq s ms).redo s.next_id

/-- Two distinct strokes used by the C1 counterexample. -/
def strokeOne : Stroke := ⟨1, cRed, 3, [⟨1, 2⟩]⟩

/-- See `strokeOne`. -/
def strokeTwo : Stroke := ⟨2, cRed, 3, [⟨5, 6⟩]⟩

/-- A store already holding `strokeOne` and `strokeTwo`. -/
def storeDup : Store := ⟨[.Stroke strokeOne, .Stroke strokeTwo], [], [], 3⟩

/-- C1 counterexample: starting from items `[one, two]`, committing a
value-equal copy of `one` and undoing once removes the *first* positional
match, yielding `[two, one]` instead of the initial `[one, two]`. -/
theorem mutations_undo_redo_roundtrip_cex :
    (undoN 1 (runMutations ratSqrt storeDup [.commitStroke strokeOne])).items ≠
      storeDup.items ∧
    (undoN 1 (runMutations ratSqrt storeDup [.commitStroke strokeOne])).items =
      [.Stroke strokeTwo, .Stroke strokeOne] := by
  exact ⟨by decide, by decide⟩

/-- C1 witness: the amended round-trip at a concrete two-mutation
sequence (a fresh stroke commit followed by `clear_all`). -/
theorem mutations_undo_redo_roundtrip_witness :
    goodSeq ratSqrt Store.new [.commitStroke strokeOne, .clearAll] = true ∧
    (undoN 2 (runMutations ratSqrt Store.new [.commitStroke strokeOne, .clearAll])).items
      = Store.new.items ∧
    (redoN 2 (undoN 2
        (runMutations ratSqrt Store.new [.commitStroke strokeOne, .clearAll]))).items
      = (runMutations ratSqrt Store.new [.commitStroke strokeOne, .clearAll]).items := by
  have h := mutations_undo_redo_roundtrip ratSqrt Store.new
    [.commitStroke strokeOne, .clearAll] (by decide)
  exact ⟨by decide, h.1, h.2⟩

/-! ### C8: eraser control point versus routing control point -/

/-- C8 (amended): the eraser's quadratic control point equals the routing
engine's simple control point whenever the endpoint distance is at most
1e-3 or greater than 0.5.  (In between, the eraser's threshold of 0.5
returns the midpoint while routing applies the perpendicular offset, so
the claimed threshold of 1e-3 for the eraser is wrong.) -/
theorem control_point_agreement (sq : ℚ → ℚ) (s e : Point)
    (h : hypotQ sq (e.x - s.x) (e.y - s.y) ≤ 1 / 1000 ∨
      1 / 2 < hypotQ sq (e.x - s.x) (e.y - s.y)) :
    control_point_for_curve sq s e = quad_control_simple sq s e := by
  rcases h with hlo | hhi
  · have h2 : sq ((e.x - s.x) * (e.x - s.x) + (e.y - s.y) * (e.y - s.y)) ≤ 1 / 2 := by
      have := hlo
      simp only [hypotQ] at this
      linarith
    have h3 : sq ((e.x - s.x) * (e.x - s.x) + (e.y - s.y) * (e.y - s.y)) ≤ 1 / 1000 := by
      simpa [hypotQ] using hlo
    simp only [control_point_for_curve, quad_control_simple, hypotQ]
    rw [if_pos h2, if_pos h3]
  · have h2 : ¬ sq ((e.x - s.x) * (e.x - s.x) + (e.y - s.y) * (e.y - s.y)) ≤ 1 / 2 := by
      simp only [hypotQ] at hhi
      linarith
    have h3 : ¬ sq ((e.x - s.x) * (e.x - s.x) + (e.y - s.y) * (e.y - s.y)) ≤ 1 / 1000 := by
      simp only [hypotQ] at hhi
      linarith
    simp only [control_point_for_curve, quad_control_simple, hypotQ]
    rw [if_neg h2, if_neg h3]

/-- C8 counterexample: for endpoints 0.3 apart (between the two
thresholds) the eraser returns the midpoint while routing offsets the
control by the clamped magnitude 18. -/
theorem control_point_agreement_cex :
    control_point_for_curve ratSqrt ⟨0, 0⟩ ⟨3/10, 0⟩ ≠
      quad_control_simple ratSqrt ⟨0, 0⟩ ⟨3/10, 0⟩ ∧
    control_point_for_curve ratSqrt ⟨0, 0⟩ ⟨3/10, 0⟩ = ⟨3/20, 0⟩ ∧
    quad_control_simple ratSqrt ⟨0, 0⟩ ⟨3/10, 0⟩ = ⟨3/20, 18⟩ := by
  refine ⟨by decide, by decide, by decide⟩

/-- C8 witness: agreement at endpoints 5 apart. -/
theorem control_point_agreement_witness :
    (1 / 2 : ℚ) < hypotQ ratSqrt (4 - 0) (3 - 0) ∧
    control_point_for_curve ratSqrt ⟨0, 0⟩ ⟨4, 3⟩ =
      quad_control_simple ratSqrt ⟨0, 0⟩ ⟨4, 3⟩ :=
  ⟨by decide, control_point_agreement ratSqrt ⟨0, 0⟩ ⟨4, 3⟩ (Or.inr (by decide))⟩

/-! ### C9: the ellipse eraser hit test -/

/-- The ellipse eraser predicate written from the specification's words:
degenerate axes fall back to the start-end segment distance, otherwise
`v = (dx/a)^2 + (dy/b)^2` around the centre of the endpoint rectangle and
the pseudo-distance `|v - 1| * min a b` is compared squared against the
squared radius. -/
def ellipseEraseSpec (sh : Shape) (p : Point) (radius : ℚ) : Bool :=
  let r := rect_for_shape sh
  let w := r.width
  let h := r.height
  if w ≤ eps32 ∨ h ≤ eps32 then
    decide (dist2_point_to_segment p sh.start sh.endp ≤ radius * radius)
  else
    let c := r.center
    let a := w / 2
    let b := h / 2
    let v := ((p.x - c.x) / a) ^ 2 + ((p.y - c.y) / b) ^ 2
    let approx := |v - 1| * min a b
    decide (approx ^ 2 ≤ radius * radius)

/-- C9: for every Ellipse shape the eraser's hit predicate agrees with the
specification's formula. -/
theorem ellipse_hit_agrees_spec (sq : ℚ → ℚ) (sh : Shape) (p : Point) (radius : ℚ)
    (hk : sh.kind = .Ellipse) :
    shape_intersects_point sq sh p (radius * radius) = ellipseEraseSpec sh p radius := by
  obtain ⟨sid, kind, style, st, en, sai, eai, sau, eau, txt, tah, tav⟩ := sh
  simp only at hk
  subst hk
  simp only [shape_intersects_point, ellipseEraseSpec, rect_for_shape, Rect.from_points,
    Rect.width, Rect.height, Rect.center]
  rw [show (if st.x ≤ en.x then st.x else en.x) = min st.x en.x from (min_def _ _).symm,
      show (if st.x ≤ en.x then en.x else st.x) = max st.x en.x from (max_def _ _).symm,
      show (if st.y ≤ en.y then st.y else en.y) = min st.y en.y from (min_def _ _).symm,
      show (if st.y ≤ en.y then en.y else st.y) = max st.y en.y from (max_def _ _).symm]
  have hax : |max st.x en.x - min st.x en.x| = max st.x en.x - min st.x en.x :=
    abs_of_nonneg (by simp [sub_nonneg, min_le_max])
  have hay : |max st.y en.y - min st.y en.y| = max st.y en.y - min st.y en.y :=
    abs_of_nonneg (by simp [sub_nonneg, min_le_max])
  rw [hax, hay]
  split_ifs with hdeg
  · rfl
  · rw [decide_eq_decide]
    have h2 : ∀ x : ℚ, x * (1/2) = x / 2 := fun x => mul_one_div x 2
    simp only [h2]
    have hX : ∀ d q : ℚ, (d / q) ^ 2 = d * d / (q * q) := fun d q => by
      rw [div_pow, pow_two, pow_two]
    simp only [hX, pow_two]

/-- A concrete ellipse for the C9 witness. -/
def ellipseShape : Shape :=
  { id := 3, kind := .Ellipse, style := styleA, start := ⟨0, 0⟩, endp := ⟨10, 6⟩
    start_attach_id := none, end_attach_id := none
    start_attach_uv := none, end_attach_uv := none
    text := "", text_align_h := .Center, text_align_v := .Middle }

/-- C9 witness: agreement evaluated at a concrete ellipse and probe. -/
theorem ellipse_hit_agrees_spec_witness :
    ellipseShape.kind = ShapeKind.Ellipse ∧
    shape_intersects_point ratSqrt ellipseShape ⟨5, 3⟩ (2 * 2) =
      ellipseEraseSpec ellipseShape ⟨5, 3⟩ 2 :=
  ⟨rfl, ellipse_hit_agrees_spec ratSqrt ellipseShape ⟨5, 3⟩ 2 rfl⟩

/-! ### C2: penetration sampling and attached obstacles -/

/-- Per-(id, inflated-rect) contribution of one sample point, read off the
inner loop of `sample_inside_hits`. -/
def hitWeight (sq : ℚ → ℚ) (start endp : Point) (attached_ids : List Nat)
    (obstacles : List ClosedShapeHit) (p : Point) (pr : Nat × Rect) : Int :=
  let skip := attached_ids.contains pr.1 &&
      (decide (hypotQ sq (p.x - start.x) (p.y - start.y) ≤ 14) ||
       decide (hypotQ sq (p.x - endp.x) (p.y - endp.y) ≤ 14))
  if skip then 0
  else if !pr.2.containsP p then 0
  else
    match obstacles.find? (fun o => o.id = pr.1) with
    | none => 0
    | some ob => if ob.rect.containsP p then 1 else 0

theorem sampleInner_snd (sq : ℚ → ℚ) (start endp : Point) (attached_ids : List Nat)
    (obstacles : List ClosedShapeHit) (p : Point) :
    ∀ (l : List (Nat × Rect)) (acc : List (Nat × Int) × Int),
      (sampleInner sq start endp attached_ids obstacles p l acc).2 =
        acc.2 + (l.map (hitWeight sq start endp attached_ids obstacles p)).sum := by
  intro l
  induction l with
  | nil => intro acc; simp [sampleInner]
  | cons pr rest ih =>
    intro acc
    obtain ⟨id, rect⟩ := pr
    by_cases hskip : (attached_ids.contains id &&
        (decide (hypotQ sq (p.x - start.x) (p.y - start.y) ≤ 14) ||
         decide (hypotQ sq (p.x - endp.x) (p.y - endp.y) ≤ 14))) = true
    · simp only [sampleInner, hitWeight, hskip, if_pos, List.map_cons, List.sum_cons,
        if_true]
      rw [ih acc]
      ring
    · rw [Bool.not_eq_true] at hskip
      by_cases hcont : rect.containsP p = true
      · cases hfind : obstacles.find? (fun o => o.id = id) with
        | none =>
          simp only [sampleInner, hitWeight, hskip, hcont, hfind, List.map_cons,
            List.sum_cons, Bool.false_eq_true, if_false, Bool.not_true]
          rw [ih acc]
          ring
        | some ob =>
          by_cases hob : ob.rect.containsP p = true
          · simp only [sampleInner, hitWeight, hskip, hcont, hfind, hob, List.map_cons,
              List.sum_cons, Bool.false_eq_true, if_false, Bool.not_true, if_true]
            rw [ih]
            push_cast
            ring
          · rw [Bool.not_eq_true] at hob
            simp only [sampleInner, hitWeight, hskip, hcont, hfind, hob, List.map_cons,
              List.sum_cons, Bool.false_eq_true, if_false, Bool.not_true]
            rw [ih acc]
            ring
      · rw [Bool.not_eq_true] at hcont
        simp only [sampleInner, hitWeight, hskip, hcont, List.map_cons, List.sum_cons,
          Bool.false_eq_true, if_false, Bool.not_false, if_true]
        rw [ih acc]
        ring

theorem foldl_samples_snd (step : List (Nat × Int) × Int → Nat → List (Nat × Int) × Int)
    (g : Nat → Int)
    (hstep : ∀ acc i, (step acc i).2 = acc.2 + g i) :
    ∀ (is : List Nat) (acc : List (Nat × Int) × Int),
      (is.foldl step acc).2 = acc.2 + (is.map g).sum := by
  intro is
  induction is with
  | nil => intro acc; simp
  | cons i rest ih =>
    intro acc
    simp only [List.foldl_cons, List.map_cons, List.sum_cons]
    rw [ih (step acc i), hstep acc i]
    ring

set_option maxRecDepth 8000 in
/-- The total of `sample_inside_hits` as a sum over the 801 samples of the
per-obstacle weights. -/
theorem sample_inside_hits_snd (sq : ℚ → ℚ) (start endp : Point)
    (attached_ids : List Nat) (obstacles : List ClosedShapeHit) (point_at : ℚ → Point) :
    (sample_inside_hits sq start endp attached_ids obstacles point_at).2 =
      ((List.range 801).map fun (i : Nat) =>
        (((obstacles.map fun o => (o.id, o.rect.inflate 18 18)).map
          (hitWeight sq start endp attached_ids obstacles
            (point_at ((i : ℚ) / 800)))).sum)).sum := by
  have h := foldl_samples_snd
    (fun acc (i : Nat) => sampleInner sq start endp attached_ids obstacles
      (point_at ((i : ℚ) / 800)) (obstacles.map fun o => (o.id, o.rect.inflate 18 18)) acc)
    (fun (i : Nat) => ((obstacles.map fun o => (o.id, o.rect.inflate 18 18)).map
      (hitWeight sq start endp attached_ids obstacles (point_at ((i : ℚ) / 800)))).sum)
    (fun acc i => sampleInner_snd sq start endp attached_ids obstacles _ _ acc)
    (List.range (800 + 1)) ([], 0)
  unfold sample_inside_hits
  rw [h]
  show (0 : Int) + _ = _
  rw [zero_add]

/-- Specification-level contribution of one obstacle at one sample point:
the inflated rect is the gate, the uninflated rect the authoritative test,
and an *attached* obstacle is skipped only within 14 units of an endpoint
(beyond that it is counted like any other obstacle). -/
def obstacleSampleHit (sq : ℚ → ℚ) (start endp : Point) (attached_ids : List Nat)
    (p : Point) (o : ClosedShapeHit) : Int :=
  if attached_ids.contains o.id &&
      (decide (hypotQ sq (p.x - start.x) (p.y - start.y) ≤ 14) ||
       decide (hypotQ sq (p.x - endp.x) (p.y - endp.y) ≤ 14)) then 0
  else if (o.rect.inflate 18 18).containsP p && o.rect.containsP p then 1 else 0

theorem find_by_id_of_nodup (obstacles : List ClosedShapeHit)
    (hnd : (obstacles.map ClosedShapeHit.id).Nodup) :
    ∀ o ∈ obstacles, obstacles.find? (fun x => x.id = o.id) = some o := by
  induction obstacles with
  | nil => intro o ho; cases ho
  | cons x rest ih =>
    have hx : x.id ∉ rest.map ClosedShapeHit.id := by
      have := (List.nodup_cons.mp hnd).1
      simpa using this
    have hrest := (List.nodup_cons.mp hnd).2
    intro o ho
    rcases List.mem_cons.mp ho with rfl | ho'
    · simp [List.find?_cons]
    · have hne : ¬ (x.id = o.id) := by
        intro he
        exact hx (he ▸ List.mem_map_of_mem ClosedShapeHit.id ho')
      rw [List.find?_cons_of_neg _ (by simpa using hne)]
      exact ih hrest o ho'

theorem hitWeight_eq_obstacleSampleHit (sq : ℚ → ℚ) (start endp : Point)
    (attached_ids : List Nat) (obstacles : List ClosedShapeHit)
    (hnd : (obstacles.map ClosedShapeHit.id).Nodup)
    (o : ClosedShapeHit) (ho : o ∈ obstacles) (p : Point) :
    hitWeight sq start endp attached_ids obstacles p (o.id, o.rect.inflate 18 18) =
      obstacleSampleHit sq start endp attached_ids p o := by
  simp only [hitWeight, obstacleSampleHit, find_by_id_of_nodup obstacles hnd o ho]
  cases hs : (attached_ids.contains o.id &&
      (decide (hypotQ sq (p.x - start.x) (p.y - start.y) ≤ 14) ||
       decide (hypotQ sq (p.x - endp.x) (p.y - endp.y) ≤ 14))) with
  | true => simp
  | false =>
    cases hc1 : (o.rect.inflate 18 18).containsP p with
    | false => simp [hc1]
    | true =>
      cases hc2 : o.rect.containsP p with
      | false => simp [hc1, hc2]
      | true => simp [hc1, hc2]

set_option maxRecDepth 8000 in
/-- C2 (amended): when obstacle ids are distinct, the total of
`sample_inside_hits` counts, for every one of the 801 samples, every
obstacle whose inflated rect and uninflated rect both contain the sample —
including attached obstacles, which are exempted only for samples within
14 units of the start or end point.  (The original claim, that attached
obstacles never contribute, is false.) -/
theorem sample_inside_hits_counts (sq : ℚ → ℚ) (start endp : Point)
    (attached_ids : List Nat) (obstacles : List ClosedShapeHit) (point_at : ℚ → Point)
    (hnd : (obstacles.map ClosedShapeHit.id).Nodup) :
    (sample_inside_hits sq start endp attached_ids obstacles point_at).2 =
      ((List.range 801).map fun (i : Nat) =>
        ((obstacles.map (obstacleSampleHit sq start endp attached_ids
          (point_at ((i : ℚ) / 800)))).sum)).sum := by
  rw [sample_inside_hits_snd]
  congr 1
  apply List.map_congr_left
  intro i _
  congr 1
  rw [List.map_map]
  apply List.map_congr_left
  intro o ho
  exact hitWeight_eq_obstacleSampleHit sq start endp attached_ids obstacles hnd o ho _

theorem hitWeight_nonneg (sq : ℚ → ℚ) (start endp : Point) (attached_ids : List Nat)
    (obstacles : List ClosedShapeHit) (p : Point) (pr : Nat × Rect) :
    0 ≤ hitWeight sq start endp attached_ids obstacles p pr := by
  simp only [hitWeight]
  split
  · omega
  · split
    · omega
    · split
      · omega
      · split
        · omega
        · omega

theorem int_sum_nonneg : ∀ l : List Int, (∀ x ∈ l, 0 ≤ x) → 0 ≤ l.sum := by
  intro l
  induction l with
  | nil => intro _; simp
  | cons y ys ih =>
    intro h
    simp only [List.sum_cons]
    have h1 := h y (List.mem_cons_self _ _)
    have h2 := ih fun x hx => h x (List.mem_cons_of_mem _ hx)
    omega

theorem int_single_le_sum : ∀ l : List Int, (∀ x ∈ l, 0 ≤ x) → ∀ x ∈ l, x ≤ l.sum := by
  intro l
  induction l with
  | nil => intro _ x hx; cases hx
  | cons y ys ih =>
    intro h x hx
    simp only [List.sum_cons]
    have hy := h y (List.mem_cons_self _ _)
    have hys := int_sum_nonneg ys fun z hz => h z (List.mem_cons_of_mem _ hz)
    rcases List.mem_cons.mp hx with rfl | hx'
    · omega
    · have := ih (fun z hz => h z (List.mem_cons_of_mem _ hz)) x hx'
      omega

/-- The attached obstacle used by the C2 counterexample. -/
def cexObstacle : ClosedShapeHit := ⟨1, .Rectangle, ⟨400, -5, 410, 5⟩⟩

set_option maxRecDepth 8000 in
/-- C2 counterexample: with the single obstacle attached (its id in the
attached set) and a straight-through candidate quadratic, the penetration
sampler reports a strictly positive hit total, so attached obstacles are
counted. -/
theorem sample_inside_hits_counts_cex :
    List.contains [1] cexObstacle.id = true ∧
    0 < (sample_inside_hits ratSqrt ⟨0, 0⟩ ⟨800, 0⟩ [1] [cexObstacle]
      (fun t => point_at_quadratic ⟨0, 0⟩ ⟨400, 0⟩ ⟨800, 0⟩ t)).2 := by
  refine ⟨rfl, ?_⟩
  rw [sample_inside_hits_snd]
  have hpos : ∀ x ∈ (List.range 801).map (fun (i : Nat) =>
      (([cexObstacle].map fun o => (o.id, o.rect.inflate 18 18)).map
        (hitWeight ratSqrt ⟨0, 0⟩ ⟨800, 0⟩ [1] [cexObstacle]
          ((fun t => point_at_quadratic ⟨0, 0⟩ ⟨400, 0⟩ ⟨800, 0⟩ t) ((i : ℚ) / 800)))).sum),
      0 ≤ x := by
    intro x hx
    obtain ⟨i, _, rfl⟩ := List.mem_map.mp hx
    apply int_sum_nonneg
    intro y hy
    obtain ⟨pr, _, rfl⟩ := List.mem_map.mp hy
    exact hitWeight_nonneg _ _ _ _ _ _ _
  have hmem : (fun (i : Nat) =>
      (([cexObstacle].map fun o => (o.id, o.rect.inflate 18 18)).map
        (hitWeight ratSqrt ⟨0, 0⟩ ⟨800, 0⟩ [1] [cexObstacle]
          ((fun t => point_at_quadratic ⟨0, 0⟩ ⟨400, 0⟩ ⟨800, 0⟩ t) ((i : ℚ) / 800)))).sum) 400
      ∈ (List.range 801).map (fun (i : Nat) =>
      (([cexObstacle].map fun o => (o.id, o.rect.inflate 18 18)).map
        (hitWeight ratSqrt ⟨0, 0⟩ ⟨800, 0⟩ [1] [cexObstacle]
          ((fun t => point_at_quadratic ⟨0, 0⟩ ⟨400, 0⟩ ⟨800, 0⟩ t) ((i : ℚ) / 800)))).sum) :=
    List.mem_map_of_mem _ (by simp)
  have hle := int_single_le_sum _ hpos _ hmem
  have h400 : (fun (i : Nat) =>
      (([cexObstacle].map fun o => (o.id, o.rect.inflate 18 18)).map
        (hitWeight ratSqrt ⟨0, 0⟩ ⟨800, 0⟩ [1] [cexObstacle]
          ((fun t => point_at_quadratic ⟨0, 0⟩ ⟨400, 0⟩ ⟨800, 0⟩ t) ((i : ℚ) / 800)))).sum) 400
      = 1 := by decide
  have hlt : (0 : Int) < (fun (i : Nat) =>
      (([cexObstacle].map fun o => (o.id, o.rect.inflate 18 18)).map
        (hitWeight ratSqrt ⟨0, 0⟩ ⟨800, 0⟩ [1] [cexObstacle]
          ((fun t => point_at_quadratic ⟨0, 0⟩ ⟨400, 0⟩ ⟨800, 0⟩ t) ((i : ℚ) / 800)))).sum) 400 := by
    rw [h400]
    omega
  exact lt_of_lt_of_le hlt hle

/-- C2 witness: the amended characterization applied at a concrete
obstacle list with distinct ids. -/
theorem sample_inside_hits_counts_witness :
    ([cexObstacle].map ClosedShapeHit.id).Nodup ∧
    (sample_inside_hits ratSqrt ⟨0, 0⟩ ⟨800, 0⟩ [] [cexObstacle]
        (fun _ => ⟨0, 0⟩)).2 =
      ((List.range 801).map fun (i : Nat) =>
        (([cexObstacle].map (obstacleSampleHit ratSqrt ⟨0, 0⟩ ⟨800, 0⟩ []
          ((fun _ => (⟨0, 0⟩ : Point)) ((i : ℚ) / 800)))).sum)).sum :=
  ⟨by decide,
   sample_inside_hits_counts ratSqrt ⟨0, 0⟩ ⟨800, 0⟩ [] [cexObstacle]
     (fun _ => ⟨0, 0⟩) (by decide)⟩

/-! ### C6: curved-path choice -/

theorem chooseLoop_characterization (f : Point × Point → Int × ℚ) :
    ∀ (pairs : List (Point × Point)) (best : Option ((Point × Point) × Int × ℚ)),
      chooseLoop f pairs best =
        match pairs.find? (fun pr => (f pr).1 = 0) with
        | some pr => .inl pr
        | none => .inr (pairs.foldl (bestUpdate f) best) := by
  intro pairs
  induction pairs with
  | nil => intro best; rfl
  | cons p rest ih =>
    intro best
    by_cases hz : (f p).1 = 0
    · simp [chooseLoop, hz, List.find?_cons_of_pos _ (decide_eq_true hz)]
    · rw [List.find?_cons_of_neg _ (by simp [hz])]
      simp only [chooseLoop, if_neg hz, List.foldl_cons]
      exact ih (bestUpdate f best p)

/-- The path choice written from the specification's words: emit the
quadratic when it has zero hits; otherwise return the first zero-hit cubic
in candidate order; otherwise take the best cubic (fewest hits, then
smallest `|c1-start| + |c2-end|`, earliest wins ties) and return it only
when its hit count is strictly below the quadratic's. -/
def chooseSpec (sq : ℚ → ℚ) (start endp quad_control : Point)
    (attached_ids : List Nat) (obstacles : List ClosedShapeHit) : ArrowPath :=
  let qr := sample_inside_hits sq start endp attached_ids obstacles
    (fun t => point_at_quadratic start quad_control endp t)
  if qr.2 = 0 then .Quadratic quad_control
  else
    let ordered := stableSortByKey (fun o => -(hitsFor qr.1 o.id)) obstacles
    let candidates := waypoint_candidates sq start endp ordered
    let pairs := candidates.flatMap fun w =>
      [cubic_controls_through_midpoint start endp w,
       cubic_controls_pull_toward_waypoint sq start endp w]
    match pairs.find? (fun pr =>
        (evalCubic sq start endp attached_ids obstacles pr).1 = 0) with
    | some pr => .Cubic pr.1 pr.2
    | none =>
      match pairs.foldl (bestUpdate (evalCubic sq start endp attached_ids obstacles))
          none with
      | some (pr, h, _) =>
        if h < qr.2 then .Cubic pr.1 pr.2 else .Quadratic quad_control
      | none => .Quadratic quad_control

theorem chooseTail_eq (f : Point × Point → Int × ℚ) (pairs : List (Point × Point))
    (qc : Point) (qh : Int) :
    (match chooseLoop f pairs none with
     | .inl pr => ArrowPath.Cubic pr.1 pr.2
     | .inr (some (pr, h, _)) =>
       if h < qh then ArrowPath.Cubic pr.1 pr.2 else ArrowPath.Quadratic qc
     | .inr none => ArrowPath.Quadratic qc) =
    (match pairs.find? (fun pr => (f pr).1 = 0) with
     | some pr => ArrowPath.Cubic pr.1 pr.2
     | none =>
       match pairs.foldl (bestUpdate f) none with
       | some (pr, h, _) =>
         if h < qh then ArrowPath.Cubic pr.1 pr.2 else ArrowPath.Quadratic qc
       | none => ArrowPath.Quadratic qc) := by
  rw [chooseLoop_characterization]
  cases hf : pairs.find? (fun pr => (f pr).1 = 0) with
  | some pr => rfl
  | none =>
    cases hb : pairs.foldl (bestUpdate f) none with
    | none => rfl
    | some b =>
      obtain ⟨pr, h, sc⟩ := b
      rfl

/-- C6: `choose_curved_path` realizes the specification's selection rule —
quadratic on zero hits, else the first zero-hit cubic immediately, else
the best-scoring cubic only when strictly better than the quadratic. -/
theorem choose_curved_path_spec (sq : ℚ → ℚ) (start endp quad_control : Point)
    (attached_ids : List Nat) (obstacles : List ClosedShapeHit) :
    choose_curved_path sq start endp quad_control attached_ids obstacles =
      chooseSpec sq start endp quad_control attached_ids obstacles := by
  by_cases h0 : (sample_inside_hits sq start endp attached_ids obstacles
      (fun t => point_at_quadratic start quad_control endp t)).2 = 0
  · simp only [choose_curved_path, chooseSpec, if_pos h0]
  · simp only [choose_curved_path, chooseSpec, if_neg h0]
    exact chooseTail_eq _ _ _ _

/-! ### C7: one ArrowRender per sufficiently long arrow-like shape -/

/-- Which shape id (if any) an item contributes to `render_arrows`,
written from the specification: arrow-like shapes whose resolved endpoints
are strictly more than 0.5 apart emit exactly one render carrying their
id; everything else emits nothing. -/
def arrowEmitted (sq : ℚ → ℚ) (closed : List ClosedShapeHit) (it : Item) : Option Nat :=
  match it with
  | .Stroke _ => none
  | .Shape sh =>
    if is_arrow_like sh.kind then
      let r := resolve_endpoints sh closed
      if 1/2 < hypotQ sq (r.2.1.x - r.1.x) (r.2.1.y - r.1.y) then some sh.id else none
    else none

theorem render_one_shape_id (sq : ℚ → ℚ) (closed : List ClosedShapeHit) (it : Item) :
    (render_one sq closed it).map ArrowRender.shape_id = arrowEmitted sq closed it := by
  cases it with
  | Stroke s => rfl
  | Shape sh =>
    cases ha : is_arrow_like sh.kind with
    | false => simp [render_one, arrowEmitted, ha]
    | true =>
      simp only [render_one, arrowEmitted, ha, Bool.not_true]
      by_cases hlen : hypotQ sq
          ((resolve_endpoints sh closed).2.1.x - (resolve_endpoints sh closed).1.x)
          ((resolve_endpoints sh closed).2.1.y - (resolve_endpoints sh closed).1.y) ≤ 1/2
      · rw [if_pos hlen, if_neg (not_lt.mpr hlen)]
        rfl
      · rw [if_neg hlen, if_pos (lt_of_not_le hlen)]
        rfl

/-- C7 (amended): the shape ids emitted by `render_arrows` are exactly, in
document order, the ids of arrow-like shapes whose resolved endpoints are
strictly more than 0.5 units apart; each such shape contributes exactly
one ArrowRender carrying its id, and nothing else contributes.  (The
original claim's "at least 0.5" is off by the boundary case: at exactly
0.5 the shape is skipped.) -/
theorem render_arrows_shape_ids (sq : ℚ → ℚ) (items : List Item) :
    (render_arrows sq items).map ArrowRender.shape_id =
      items.filterMap (arrowEmitted sq (collect_closed_shapes items)) := by
  have hfun : (fun it =>
      (render_one sq (collect_closed_shapes items) it).map ArrowRender.shape_id) =
      arrowEmitted sq (collect_closed_shapes items) :=
    funext (render_one_shape_id sq (collect_closed_shapes items))
  rw [render_arrows, List.map_filterMap, hfun]

/-- A straight arrow whose endpoints are exactly 0.5 apart. -/
def halfArrow : Shape :=
  { id := 7, kind := .Arrow, style := styleA, start := ⟨0, 0⟩, endp := ⟨1/2, 0⟩
    start_attach_id := none, end_attach_id := none
    start_attach_uv := none, end_attach_uv := none
    text := "", text_align_h := .Center, text_align_v := .Middle }

/-- C7 counterexample: an arrow-like shape whose resolved endpoints are
exactly 0.5 apart is omitted by `render_arrows`, though the claim promises
an ArrowRender for separations of at least 0.5. -/
theorem render_arrows_shape_ids_cex :
    render_arrows ratSqrt [.Shape halfArrow] = [] ∧
    is_arrow_like halfArrow.kind = true ∧
    hypotQ ratSqrt
      ((resolve_endpoints halfArrow (collect_closed_shapes [.Shape halfArrow])).2.1.x -
        (resolve_endpoints halfArrow (collect_closed_shapes [.Shape halfArrow])).1.x)
      ((resolve_endpoints halfArrow (collect_closed_shapes [.Shape halfArrow])).2.1.y -
        (resolve_endpoints halfArrow (collect_closed_shapes [.Shape halfArrow])).1.y)
      = 1/2 := by
  refine ⟨by decide, rfl, by decide⟩
